import Mathlib

/-!
# mender-flash: a shallow embedding of `main.c`

The file embeds the copy engine of mender-flash (`buf_io`, `shovel_data`, the
zero-copy loop and the dispatch of `main`) as executable Lean functions over an
explicit model of the two file descriptors, and proves properties of them.

Conventions of the embedding

* `size_t`, `uint64_t` and `uintmax_t` are naturals reduced modulo `2^64` (LP64);
  `off_t` and `ssize_t` are integers.
* A file descriptor is driven by a script of `Outcome`s: the n-th system call on
  the descriptor behaves as the n-th entry says (complete, short, or failing
  with an `errno`); after the script is used up every call completes.
* A `read` with a positive count returns 0 only at the end of the data.
* Loops are unrolled with a fuel argument; `none` means the fuel ran out. The
  fuel given by `buf_io`, `shovel_data` and `main` is proved to be enough.
-/

namespace MenderFlash

/-! ## Constants and macros -/

abbrev Byte := UInt8

/-- The macro `#define BLOCK_SIZE (1024 * 1024ULL)`, 1 MiB. -/
def BLOCK_SIZE : Nat := 1024 * 1024

/-- The constant `SIZE_MAX` of a 64-bit `size_t`. -/
def SIZE_MAX : Nat := 2 ^ 64 - 1

/-- The errno value `EINTR`. -/
def EINTR : Nat := 4

/-- The errno value `EBADF`. -/
def EBADF : Nat := 9

/-- The errno value `EINVAL`. -/
def EINVAL : Nat := 22

/-- The exit status `EXIT_FAILURE`. -/
def EXIT_FAILURE : Nat := 1

/-- The macro `#define MIN(X, Y) ((X < Y) ? X : Y)`. -/
def MIN (X Y : Nat) : Nat := if X < Y then X else Y

/-- The cast `(uintmax_t) x`, also used for `(size_t) x` and `(uint64_t) x`. -/
def to_uintmax (x : Int) : Nat := (x % 2 ^ 64).toNat

/-- The conversion of a `size_t` to the signed `off_t`. -/
def to_off_t (x : Nat) : Int := if x % 2 ^ 64 < 2 ^ 63 then (x % 2 ^ 64 : Nat) else (x % 2 ^ 64 : Nat) - 2 ^ 64

/-- The macro `#define MIN_SIZE(X, Y)
((size_t) MIN(((uintmax_t) SIZE_MAX), (MIN(((uintmax_t) X), ((uintmax_t) Y)))))`. -/
def MIN_SIZE (X Y : Int) : Nat := MIN SIZE_MAX (MIN (to_uintmax X) (to_uintmax Y)) % 2 ^ 64

/-! ## The two file descriptors -/

inductive Fd where
  | in_fd
  | out_fd
  deriving DecidableEq, Repr

/-- How one system call on a descriptor behaves. -/
inductive Outcome where
  /-- the call transfers as much as it can -/
  | full
  /-- the call transfers at most `k + 1` bytes -/
  | short (k : Nat)
  /-- the call returns -1 and sets `errno` to `e` -/
  | fail (e : Nat)
  deriving DecidableEq, Repr

/-- System calls that the program issues on the output descriptor. -/
inductive Event where
  | write (count : Nat)
  | lseek (offset : Int)
  | fsync
  | ioctl_volup (size : Nat)
  | sendfile (count : Nat)
  deriving DecidableEq, Repr

structure World where
  /-- bytes the input has not delivered yet -/
  input : List Byte
  in_script : List Outcome
  /-- content of the output -/
  out : List Byte
  /-- file position of the output descriptor -/
  out_pos : Nat
  out_script : List Outcome
  errno : Nat
  /-- calls issued on the output descriptor, oldest first -/
  trace : List Event
  deriving DecidableEq, Repr

/-- A `unsigned char` array, addressed from its start. -/
abbrev Buffer := Nat → Byte

def Buffer.store (buf : Buffer) (off : Nat) (data : List Byte) : Buffer :=
  fun i => if off ≤ i ∧ i < off + data.length then data.getD (i - off) 0 else buf i

def Buffer.load (buf : Buffer) (off n : Nat) : List Byte :=
  (List.range n).map (fun i => buf (off + i))

def script_head (s : List Outcome) : Outcome := s.headD Outcome.full

def Outcome.is_fail : Outcome → Bool
  | Outcome.fail _ => true
  | _ => false

/-- A script without a failing call. -/
def no_fail (s : List Outcome) : Prop := ∀ o ∈ s, o.is_fail = false

instance (s : List Outcome) : Decidable (no_fail s) := by
  unfold no_fail; infer_instance

/-- Number of bytes a non-failing call transfers: at most `count`, at most what
is available, at least one when both are positive. -/
def granted (o : Outcome) (count avail : Nat) : Nat :=
  match o with
  | Outcome.short k => min (k + 1) (min count avail)
  | _ => min count avail

/-- Content of a file after `data` is written at offset `pos`; a gap between the
end of the file and `pos` reads as zeros, and writing nothing changes nothing. -/
def file_write (out : List Byte) (pos : Nat) (data : List Byte) : List Byte :=
  if data = [] then out
  else out.take pos ++ List.replicate (pos - out.length) 0 ++ data ++ out.drop (pos + data.length)

/-- The type `io_fn_t`: `io_fn w fd buf off count` is the call `io_fn(fd, buf + off, count)`
in the world `w`; it gives the return value, the buffer and the world after the call. -/
abbrev io_fn_t := World → Fd → Buffer → Nat → Nat → Int × Buffer × World

/-- The system call `read(2)`. -/
def sys_read : io_fn_t := fun w fd buf off count =>
  match fd with
  | Fd.in_fd =>
    match script_head w.in_script with
    | Outcome.fail e => (-1, buf, { w with in_script := w.in_script.tail, errno := e })
    | o =>
      let n := granted o count w.input.length
      ((n : Int), buf.store off (w.input.take n),
        { w with in_script := w.in_script.tail, input := w.input.drop n })
  | Fd.out_fd =>
    match script_head w.out_script with
    | Outcome.fail e => (-1, buf, { w with out_script := w.out_script.tail, errno := e })
    | o =>
      let n := granted o count (w.out.length - w.out_pos)
      ((n : Int), buf.store off ((w.out.drop w.out_pos).take n),
        { w with out_script := w.out_script.tail, out_pos := w.out_pos + n })

/-- The system call `write(2)`; the input descriptor is open read-only. -/
def sys_write : io_fn_t := fun w fd buf off count =>
  match fd with
  | Fd.in_fd => (-1, buf, { w with errno := EBADF })
  | Fd.out_fd =>
    match script_head w.out_script with
    | Outcome.fail e =>
      (-1, buf, { w with out_script := w.out_script.tail, errno := e,
                         trace := w.trace ++ [Event.write count] })
    | o =>
      let n := granted o count count
      ((n : Int), buf,
        { w with out_script := w.out_script.tail,
                 out := file_write w.out w.out_pos (buf.load off n),
                 out_pos := w.out_pos + n,
                 trace := w.trace ++ [Event.write count] })

/-- The call `lseek(out_fd, offset, SEEK_CUR)`. -/
def sys_lseek_cur (w : World) (offset : Int) : Int × World :=
  match script_head w.out_script with
  | Outcome.fail e =>
    (-1, { w with out_script := w.out_script.tail, errno := e,
                  trace := w.trace ++ [Event.lseek offset] })
  | _ =>
    if (w.out_pos : Int) + offset < 0 then
      (-1, { w with out_script := w.out_script.tail, errno := EINVAL,
                    trace := w.trace ++ [Event.lseek offset] })
    else
      ((w.out_pos : Int) + offset,
        { w with out_script := w.out_script.tail, out_pos := ((w.out_pos : Int) + offset).toNat,
                 trace := w.trace ++ [Event.lseek offset] })

/-- The call `fsync(out_fd)`. -/
def sys_fsync (w : World) : Int × World :=
  match script_head w.out_script with
  | Outcome.fail e =>
    (-1, { w with out_script := w.out_script.tail, errno := e, trace := w.trace ++ [Event.fsync] })
  | _ => (0, { w with out_script := w.out_script.tail, trace := w.trace ++ [Event.fsync] })

/-- The calls `sendfile(out_fd, in_fd, 0, count)` and `splice_sendfile`, which the program
treats alike: up to `count` bytes move from the input to the output position. -/
def sys_sendfile (w : World) (count : Nat) : Int × World :=
  match script_head w.in_script with
  | Outcome.fail e =>
    (-1, { w with in_script := w.in_script.tail, errno := e,
                  trace := w.trace ++ [Event.sendfile count] })
  | o =>
    let n := granted o count w.input.length
    ((n : Int),
      { w with in_script := w.in_script.tail,
               input := w.input.drop n,
               out := file_write w.out w.out_pos (w.input.take n),
               out_pos := w.out_pos + n,
               trace := w.trace ++ [Event.sendfile count] })

/-- The call `ioctl(out_fd, UBI_IOCVOLUP, &volume_size)`; `ok` says whether the device
accepts it. -/
def sys_ioctl_volup (w : World) (ok : Bool) (volume_size : Nat) : Int × World :=
  (if ok then 0 else -1, { w with trace := w.trace ++ [Event.ioctl_volup volume_size] })

/-! ## `buf_io` -/

/-- The `do ... while` loop of `buf_io`; the result is `(n_done, rem, buf, world)` at loop exit.
The branch `else if ((n_done == -1) && (errno == EINTR)) continue;` changes no variable,
and a `continue` in a `do ... while` statement goes to the evaluation of the loop
condition: whether the test holds or not, control reaches the condition with `rem`
unchanged, and `n_done > 0` is false there. -/
def buf_io_loop (io_fn : io_fn_t) (fd : Fd) (len : Nat) :
    Nat → World → Buffer → Nat → Option (Int × Nat × Buffer × World)
  | 0, _, _, _ => none
  | fuel + 1, w, buf, rem =>
    let r := io_fn w fd buf (len - rem) rem
    let n_done := r.1
    let rem1 := if n_done > 0 then to_uintmax ((rem : Int) - n_done) else rem
    if n_done > 0 ∧ rem1 > 0 ∧ len > 0 then
      buf_io_loop io_fn fd len fuel r.2.2 r.2.1 rem1
    else
      some (n_done, rem1, r.2.1, r.2.2)

/-- The function `ssize_t buf_io(io_fn_t io_fn, int fd, unsigned char *buf, size_t len)`. -/
def buf_io (io_fn : io_fn_t) (w : World) (fd : Fd) (buf : Buffer) (len : Nat) :
    Option (Int × Buffer × World) :=
  match buf_io_loop io_fn fd len (len + 1) w buf len with
  | none => none
  | some (n_done, rem, buf1, w1) =>
    some (if n_done < 0 then n_done else ((len - rem : Nat) : Int), buf1, w1)

/-! ## `shovel_data` -/

structure Stats where
  blocks_written : Nat
  blocks_omitted : Nat
  bytes_written : Nat
  bytes_omitted : Nat
  total_bytes : Nat
  deriving DecidableEq, Repr

/-- The initial value `struct Stats stats = {0}`. -/
def Stats.zero : Stats := ⟨0, 0, 0, 0, 0⟩

/-- The test `memcmp(a, b, n) == 0`. -/
def memcmp_eq (a b : Buffer) (n : Nat) : Bool := a.load 0 n == b.load 0 n

/-- What `shovel_data` hands back: its return value, `*stats`, `*error` and the world. -/
structure ShovelResult where
  ok : Bool
  stats : Stats
  error : Nat
  world : World
  deriving DecidableEq, Repr

/-- Local state of `shovel_data` between two iterations of its loop. -/
structure ShovelState where
  world : World
  buffer : Buffer
  out_fd_buffer : Buffer
  len : Int
  n_unsynced : Nat
  stats : Stats
  error : Nat

inductive IterResult where
  /-- the body ran `return false` -/
  | ret (r : ShovelResult)
  /-- the body reached its end or ran `continue` -/
  | next (s : ShovelState)

/-- Lines 129-147: write the block, update the statistics, sync when due. -/
def shovel_write (fsync_interval : Nat) (s : ShovelState) (n_read : Int) : Option IterResult :=
  match buf_io sys_write s.world Fd.out_fd s.buffer n_read.toNat with
  | none => none
  | some (n_written, buffer, w) =>
    if n_written ≠ n_read then
      some (IterResult.ret ⟨false, s.stats, w.errno, w⟩)
    else
      let stats : Stats :=
        { s.stats with
          total_bytes := to_uintmax (s.stats.total_bytes + n_read)
          blocks_written := (s.stats.blocks_written + 1) % 2 ^ 64
          bytes_written := to_uintmax (s.stats.bytes_written + n_written) }
      if fsync_interval ≠ 0 then
        let n_unsynced := to_uintmax (s.n_unsynced + n_written)
        if n_unsynced ≥ fsync_interval then
          some (IterResult.next
            { s with world := (sys_fsync w).2, buffer := buffer, stats := stats,
                     n_unsynced := 0, len := s.len - n_read })
        else
          some (IterResult.next
            { s with world := w, buffer := buffer, stats := stats,
                     n_unsynced := n_unsynced, len := s.len - n_read })
      else
        some (IterResult.next
          { s with world := w, buffer := buffer, stats := stats, len := s.len - n_read })

/-- The body of the `while (len > 0)` loop of `shovel_data`. -/
def shovel_iter (write_optimized : Bool) (fsync_interval : Nat) (s : ShovelState) :
    Option IterResult :=
  match buf_io sys_read s.world Fd.in_fd s.buffer (MIN_SIZE BLOCK_SIZE s.len) with
  | none => none
  | some (n_read, buffer, w) =>
    if n_read < 0 then
      some (IterResult.ret ⟨false, s.stats, w.errno, w⟩)
    else if n_read = 0 ∧ s.len > 0 then
      some (IterResult.ret ⟨false, s.stats, s.error, w⟩)
    else if write_optimized then
      match buf_io sys_read w Fd.out_fd s.out_fd_buffer (MIN_SIZE BLOCK_SIZE s.len) with
      | none => none
      | some (out_fd_n_read, out_fd_buffer, w1) =>
        if out_fd_n_read < 0 then
          some (IterResult.ret ⟨false, s.stats, w1.errno, w1⟩)
        else if n_read = out_fd_n_read ∧ memcmp_eq buffer out_fd_buffer n_read.toNat then
          some (IterResult.next
            { s with
              world := w1, buffer := buffer, out_fd_buffer := out_fd_buffer
              stats :=
                { s.stats with
                  blocks_omitted := (s.stats.blocks_omitted + 1) % 2 ^ 64
                  total_bytes := to_uintmax (s.stats.total_bytes + n_read) }
              len := s.len - n_read })
        else
          let r := sys_lseek_cur w1 (-out_fd_n_read)
          if r.1 = -1 then
            some (IterResult.ret ⟨false, s.stats, r.2.errno, r.2⟩)
          else
            shovel_write fsync_interval
              { s with world := r.2, buffer := buffer, out_fd_buffer := out_fd_buffer } n_read
    else
      shovel_write fsync_interval { s with world := w, buffer := buffer } n_read

/-- The `while (len > 0)` loop of `shovel_data` and the code after it. -/
def shovel_loop (write_optimized : Bool) (fsync_interval : Nat) :
    Nat → ShovelState → Option ShovelResult
  | 0, _ => none
  | fuel + 1, s =>
    if s.len > 0 then
      match shovel_iter write_optimized fsync_interval s with
      | none => none
      | some (IterResult.ret r) => some r
      | some (IterResult.next s1) => shovel_loop write_optimized fsync_interval fuel s1
    else if fsync_interval ≠ 0 ∧ s.n_unsynced ≥ fsync_interval then
      some ⟨true, s.stats, s.error, (sys_fsync s.world).2⟩
    else
      some ⟨true, s.stats, s.error, s.world⟩

/-- The function `bool shovel_data(int in_fd, int out_fd, off_t len, bool write_optimized,
size_t fsync_interval, struct Stats *stats, int *error)`; the two stack buffers
start with the contents `buffer` and `out_fd_buffer`. -/
def shovel_data (w : World) (len : Int) (write_optimized : Bool) (fsync_interval : Nat)
    (stats : Stats) (error : Nat) (buffer out_fd_buffer : Buffer) : Option ShovelResult :=
  shovel_loop write_optimized fsync_interval (len.toNat + 1)
    { world := w, buffer := buffer, out_fd_buffer := out_fd_buffer, len := len,
      n_unsynced := 0, stats := stats, error := error }

/-! ## `main`: set-up, dispatch and the zero-copy loop -/

/-- The variables of `main` that the option loop sets (lines 199-255). -/
structure Opts where
  /-- value of `--input-size`, 0 when the option is absent -/
  volume_size : Nat
  /-- is `false` when `--write-everything` is given -/
  write_optimized : Bool
  /-- value of `--fsync-interval`, `BLOCK_SIZE` when the option is absent -/
  fsync_interval : Int

/-- What `main` learns from the system before it copies. -/
structure Env where
  /-- whether `open(input_path, O_RDONLY)` succeeds, or the input is stdin -/
  in_open_ok : Bool
  fstat_ok : Bool
  /-- the field `in_fd_stat.st_size` -/
  st_size : Int
  /-- the test `S_ISFIFO(in_fd_stat.st_mode)` -/
  in_is_fifo : Bool
  /-- return value of `is_ubi_device(output_path)`: 1, 0 or -1 -/
  is_ubi : Int
  out_open_ok : Bool
  /-- the device accepts `UBI_IOCVOLUP` -/
  ioctl_ok : Bool
  /-- initial content of the stack array `buffer` of `shovel_data` -/
  buffer : Buffer
  /-- initial content of the stack array `out_fd_buffer` of `shovel_data` -/
  out_fd_buffer : Buffer

/-- The copy that `main` runs, with the arguments it is given. -/
inductive Engine where
  | shovel_data (len : Int) (write_optimized : Bool) (fsync_interval : Nat)
  | zero_copy (len : Nat) (chunk_size : Nat)
  deriving DecidableEq, Repr

structure MainResult where
  exit_code : Nat
  /-- the copy that was run, `none` when `main` left before the copy -/
  engine : Option Engine
  stats : Stats
  world : World
  deriving DecidableEq, Repr

/-- Result of the zero-copy loop: `ret` and `len` at loop exit, the statistics, the world. -/
structure ZeroCopyResult where
  ret : Int
  len : Nat
  stats : Stats
  world : World
  deriving DecidableEq, Repr

/-- The `do ... while ((ret > 0) && (len > 0))` loop of `main` (lines 370-381);
`len` is a `size_t`, `n_unsynced` and `fsync_interval` are `off_t`. -/
def zero_copy_loop (fsync_interval : Int) (chunk_size : Nat) :
    Nat → World → Nat → Int → Stats → Option ZeroCopyResult
  | 0, _, _, _, _ => none
  | fuel + 1, w, len, n_unsynced, stats =>
    let r := sys_sendfile w chunk_size
    let ret := r.1
    if ret > 0 then
      let len1 := to_uintmax ((len : Int) - ret)
      let stats1 : Stats := { stats with total_bytes := to_uintmax (stats.total_bytes + ret) }
      let n_unsynced1 := n_unsynced + ret
      let synced := decide (fsync_interval ≠ 0 ∧ n_unsynced1 ≥ fsync_interval)
      let w1 := if synced then (sys_fsync r.2).2 else r.2
      let n_unsynced2 := if synced then 0 else n_unsynced1
      if len1 > 0 then
        zero_copy_loop fsync_interval chunk_size fuel w1 len1 n_unsynced2 stats1
      else
        some ⟨ret, len1, stats1, w1⟩
    else
      some ⟨ret, len, stats, r.2⟩

/-- Lines 387-417: the final sync and the exit status. -/
def main_finish (fsync_interval : Int) (success : Bool) (engine : Engine) (stats : Stats)
    (w : World) : MainResult :=
  { exit_code := if success then 0 else EXIT_FAILURE
    engine := some engine
    stats := stats
    world := if fsync_interval ≠ 0 then (sys_fsync w).2 else w }

/-- Lines 324-385 of the Linux build: the choice between `shovel_data` and the zero-copy loop. -/
def main_copy (e : Env) (is_ubi : Int) (write_optimized : Bool) (fsync_interval : Int)
    (len : Nat) (w : World) : Option MainResult :=
  if is_ubi = 1 ∨ write_optimized then
    match shovel_data w (to_off_t len) write_optimized (to_uintmax fsync_interval)
        Stats.zero 0 e.buffer e.out_fd_buffer with
    | none => none
    | some r =>
      some (main_finish fsync_interval r.ok
        (Engine.shovel_data (to_off_t len) write_optimized (to_uintmax fsync_interval))
        r.stats r.world)
  else
    let chunk_size := if fsync_interval ≠ 0 then MIN_SIZE len fsync_interval else len
    match zero_copy_loop fsync_interval chunk_size (w.input.length + 1) w len 0 Stats.zero with
    | none => none
    | some r =>
      some (main_finish fsync_interval (decide (r.ret = 0 ∨ (r.ret > 0 ∧ r.len = 0)))
        (Engine.zero_copy len chunk_size) r.stats r.world)

/-- The function `main` from line 257 on, Linux build, started with the option values `o`. -/
def main (o : Opts) (e : Env) (w : World) : Option MainResult :=
  if !e.in_open_ok then some ⟨EXIT_FAILURE, none, Stats.zero, w⟩
  else if !e.fstat_ok then some ⟨EXIT_FAILURE, none, Stats.zero, w⟩
  else if e.is_ubi = -1 then some ⟨EXIT_FAILURE, none, Stats.zero, w⟩
  else
    let write_optimized := if e.is_ubi = 1 then false else o.write_optimized
    let fsync_interval := if e.is_ubi = 1 then 0 else o.fsync_interval
    if !e.out_open_ok then some ⟨EXIT_FAILURE, none, Stats.zero, w⟩
    else
      let r := if e.is_ubi = 1 then sys_ioctl_volup w e.ioctl_ok (o.volume_size % 2 ^ 64) else (0, w)
      if e.is_ubi = 1 ∧ r.1 = -1 then some ⟨EXIT_FAILURE, none, Stats.zero, r.2⟩
      else if o.volume_size % 2 ^ 64 ≠ 0 then
        main_copy e e.is_ubi write_optimized fsync_interval (o.volume_size % 2 ^ 64) r.2
      else if e.st_size = 0 then some ⟨EXIT_FAILURE, none, Stats.zero, r.2⟩
      else main_copy e e.is_ubi write_optimized fsync_interval (to_uintmax e.st_size) r.2

/-! ## Predicates used in the statements -/

/-- What the write part of an iteration does when it does not fail. -/
structure WriteStep (fsync_interval : Nat) (s s1 : ShovelState) (k : Nat) : Prop where
  input_eq : s1.world.input = s.world.input
  in_script_eq : s1.world.in_script = s.world.in_script
  out_script_eq : ∃ j, s1.world.out_script = s.world.out_script.drop j
  out_eq : s1.world.out = file_write s.world.out s.world.out_pos (s.buffer.load 0 k)
  out_pos_eq : s1.world.out_pos = s.world.out_pos + k
  stats_eq : s1.stats =
    { s.stats with
      total_bytes := to_uintmax (s.stats.total_bytes + (k : Int))
      blocks_written := (s.stats.blocks_written + 1) % 2 ^ 64
      bytes_written := to_uintmax (s.stats.bytes_written + (k : Int)) }
  len_eq : s1.len = s.len - k
  error_eq : s1.error = s.error
  buffer_eq : s1.buffer = s.buffer
  out_fd_buffer_eq : s1.out_fd_buffer = s.out_fd_buffer
  n_unsynced_eq : s1.n_unsynced =
    if fsync_interval ≠ 0 then
      (if to_uintmax (s.n_unsynced + (k : Int)) ≥ fsync_interval then 0
       else to_uintmax (s.n_unsynced + (k : Int)))
    else s.n_unsynced
  trace_eq : ∃ tw : List Event, (∀ ev ∈ tw, ∃ c, ev = Event.write c) ∧
    s1.world.trace = s.world.trace ++ tw ++
      (if fsync_interval ≠ 0 ∧ to_uintmax (s.n_unsynced + (k : Int)) ≥ fsync_interval
       then [Event.fsync] else [])

/-- What an iteration of the loop of `shovel_data` does when it does not fail: it
moves `n` bytes, either leaving the output as it is (the block is omitted) or
writing them. -/
structure IterStep (write_optimized : Bool) (fsync_interval : Nat) (s s1 : ShovelState)
    (n : Nat) : Prop where
  n_pos : 0 < n
  n_le : n ≤ min BLOCK_SIZE s.len.toNat
  n_le_input : n ≤ s.world.input.length
  short_eof : n < min BLOCK_SIZE s.len.toNat → s.world.input.length = n
  input_eq : s1.world.input = s.world.input.drop n
  in_script_eq : ∃ j, s1.world.in_script = s.world.in_script.drop j
  out_script_eq : ∃ j, s1.world.out_script = s.world.out_script.drop j
  out_pos_eq : s1.world.out_pos = s.world.out_pos + n
  len_eq : s1.len = s.len - n
  error_eq : s1.error = s.error
  total_eq : s1.stats.total_bytes = to_uintmax (s.stats.total_bytes + (n : Int))
  bytes_omitted_eq : s1.stats.bytes_omitted = s.stats.bytes_omitted
  kind :
    (write_optimized = true ∧ s1.world.out = s.world.out ∧
      (s.world.out.drop s.world.out_pos).take n = s.world.input.take n ∧
      s1.world.trace = s.world.trace ∧ s1.n_unsynced = s.n_unsynced ∧
      s1.stats.blocks_omitted = (s.stats.blocks_omitted + 1) % 2 ^ 64 ∧
      s1.stats.blocks_written = s.stats.blocks_written ∧
      s1.stats.bytes_written = s.stats.bytes_written) ∨
    (s1.world.out = file_write s.world.out s.world.out_pos (s.world.input.take n) ∧
      (write_optimized = true → n = min BLOCK_SIZE s.len.toNat →
        n ≤ s.world.out.length - s.world.out_pos →
        (s.world.out.drop s.world.out_pos).take n ≠ s.world.input.take n) ∧
      s1.stats.blocks_omitted = s.stats.blocks_omitted ∧
      s1.stats.blocks_written = (s.stats.blocks_written + 1) % 2 ^ 64 ∧
      s1.stats.bytes_written = to_uintmax (s.stats.bytes_written + (n : Int)) ∧
      s1.n_unsynced =
        (if fsync_interval ≠ 0 then
          (if to_uintmax (s.n_unsynced + (n : Int)) ≥ fsync_interval then 0
           else to_uintmax (s.n_unsynced + (n : Int)))
         else s.n_unsynced) ∧
      ∃ tl tw : List Event, (∀ ev ∈ tl, ∃ off, ev = Event.lseek off) ∧
        (∀ ev ∈ tw, ∃ c, ev = Event.write c) ∧
        s1.world.trace = s.world.trace ++ tl ++ tw ++
          (if fsync_interval ≠ 0 ∧ to_uintmax (s.n_unsynced + (n : Int)) ≥ fsync_interval
           then [Event.fsync] else []))

/-- Loop invariant of `shovel_data` on the input: `c` bytes of the input `inp` have been
consumed and `len0 - c` are still to copy. -/
structure ShovelInv (inp : List Byte) (len0 : Nat) (s : ShovelState) (c : Nat) : Prop where
  c_le : c ≤ len0
  len_eq : s.len = (len0 : Int) - (c : Int)
  c_le_input : c ≤ inp.length
  input_eq : s.world.input = inp.drop c

/-- Loop invariant of `shovel_data` on the output, started at position 0: the output
holds the `c` bytes consumed in front of what is left of its initial content `out0`,
and its position is `c`. -/
structure OutInv (inp out0 : List Byte) (s : ShovelState) (c : Nat) : Prop where
  out_eq : s.world.out = inp.take c ++ out0.drop c
  out_pos_eq : s.world.out_pos = c

/-- Loop invariant of `shovel_data` on the statistics, started from zeroed `Stats`. -/
structure StatsInv (len0 : Nat) (s : ShovelState) (c : Nat) : Prop where
  total_eq : s.stats.total_bytes = c
  blocks_eq : s.stats.blocks_written + s.stats.blocks_omitted = (c + BLOCK_SIZE - 1) / BLOCK_SIZE
  aligned : c % BLOCK_SIZE = 0 ∨ c = len0 ∨ s.world.input = []
  bytes_omitted_eq : s.stats.bytes_omitted = 0

/-! ## Concrete runs -/

/-- A buffer of zero bytes. -/
def zero_buffer : Buffer := fun _ => 0

/-- Input 1, 2, 3 whose first read delivers one byte; the output holds four other bytes. -/
def short_read_world : World :=
  { input := [1, 2, 3], in_script := [Outcome.short 0], out := [9, 9, 9, 9], out_pos := 0,
    out_script := [], errno := 0, trace := [] }

/-- The result of copying 3 bytes in `short_read_world`, write-optimized. -/
def short_read_result : ShovelResult :=
  { ok := true
    stats := { blocks_written := 1, blocks_omitted := 0, bytes_written := 3, bytes_omitted := 0,
               total_bytes := 3 }
    error := 0
    world := { input := [], in_script := [], out := [1, 2, 3, 9], out_pos := 3, out_script := [],
               errno := 0, trace := [Event.lseek (-3), Event.write 3] } }

/-- The world of a second run after `short_read_result`: the same input, read one
byte at first, and the output that the first run left, at position 0. -/
def second_run_world : World :=
  { input := [1, 2, 3], in_script := [Outcome.short 0], out := [1, 2, 3, 9], out_pos := 0,
    out_script := [Outcome.short 1], errno := 0, trace := [] }

/-- Input and output both hold the single byte 7. -/
def matching_world : World :=
  { input := [7], in_script := [], out := [7], out_pos := 0, out_script := [], errno := 0,
    trace := [] }

/-- An input of two bytes, to be copied with a declared length of three. -/
def truncated_world : World :=
  { input := [1, 2], in_script := [], out := [], out_pos := 0, out_script := [], errno := 0,
    trace := [] }

/-- Input 1, 2, 3, 4; `interrupted` says whether the first call on the input is
interrupted by a signal. -/
def four_byte_world (interrupted : Bool) : World :=
  { input := [1, 2, 3, 4], in_script := if interrupted then [Outcome.fail EINTR] else [],
    out := [], out_pos := 0, out_script := [], errno := 0, trace := [] }

/-- Input 1, 2, 3 read one byte at a time into an empty output whose first write is short. -/
def trickle_world : World :=
  { input := [1, 2, 3], in_script := [Outcome.short 0, Outcome.short 0], out := [], out_pos := 0,
    out_script := [Outcome.short 0], errno := 0, trace := [] }

/-- The result of copying 3 bytes in `trickle_world` with a sync every 2 bytes. -/
def trickle_result : ShovelResult :=
  { ok := true
    stats := { blocks_written := 1, blocks_omitted := 0, bytes_written := 3, bytes_omitted := 0,
               total_bytes := 3 }
    error := 0
    world := { input := [], in_script := [], out := [1, 2, 3], out_pos := 3, out_script := [],
               errno := 0, trace := [Event.write 3, Event.write 2, Event.fsync] } }

/-- Loop invariant of a write-optimized run over an output `out` that already holds
the input: nothing has been written, synced or sought, and no call can fail. -/
structure OmitInv (out : List Byte) (trace : List Event) (s : ShovelState) (c : Nat) : Prop where
  no_fail_in : no_fail s.world.in_script
  no_fail_out : no_fail s.world.out_script
  out_eq : s.world.out = out
  out_pos_eq : s.world.out_pos = c
  trace_eq : s.world.trace = trace
  n_unsynced_eq : s.n_unsynced = 0
  blocks_written_eq : s.stats.blocks_written = 0

/-- An environment in which every step of the set-up succeeds; the output is a UBI
volume iff `ubi`, and `fstat` reports an input of `st_size` bytes. -/
def good_env (ubi : Bool) (st_size : Int) : Env :=
  { in_open_ok := true, fstat_ok := true, st_size := st_size, in_is_fifo := false,
    is_ubi := if ubi then 1 else 0, out_open_ok := true, ioctl_ok := true,
    buffer := zero_buffer, out_fd_buffer := zero_buffer }

/-- An input of `n` bytes 1, 2, ..., `n` and an empty output. -/
def counting_world (n : Nat) : World :=
  { input := (List.range n).map (fun i => UInt8.ofNat (i + 1)), in_script := [], out := [],
    out_pos := 0, out_script := [], errno := 0, trace := [] }


/-! ## Counting syncs -/

/-- Number of `fsync` calls in a trace. -/
def fsync_count (t : List Event) : Nat := t.count Event.fsync

/-- Loop invariant of `shovel_data` on the syncs, for an interval `K` that is not 0 and
a run started from zeroed statistics with `f0` syncs in the trace: `F` syncs were
issued so far, each after at least `K` and fewer than `K + BLOCK_SIZE` bytes written
since the sync before it, and fewer than `K` bytes were written since the last one. -/
structure SyncInv (K f0 : Nat) (s : ShovelState) (c F : Nat) : Prop where
  bytes_written_le : s.stats.bytes_written ≤ c
  count_eq : fsync_count s.world.trace = f0 + F
  pending : s.n_unsynced < K
  lower : K * F + s.n_unsynced ≤ s.stats.bytes_written
  upper : s.stats.bytes_written ≤ F * (K + BLOCK_SIZE - 1) + s.n_unsynced

/-- State of a run that writes everything (`write_optimized = false`) and in which no
call fails: `L` bytes are still to copy and the input holds them, the accumulator is
`u`, the trace holds `f` syncs and `b` bytes were written. -/
structure PlainRun (s : ShovelState) (L u f b : Nat) : Prop where
  len_eq : s.len = (L : Int)
  input_le : L ≤ s.world.input.length
  no_fail_in : no_fail s.world.in_script
  no_fail_out : no_fail s.world.out_script
  n_unsynced_eq : s.n_unsynced = u
  count_eq : fsync_count s.world.trace = f
  bytes_eq : s.stats.bytes_written = b

/-- An input of 6 MiB of zero bytes and an empty output; no call is short or fails. -/
def six_mib_world : World :=
  { input := List.replicate 6291456 0, in_script := [], out := [], out_pos := 0,
    out_script := [], errno := 0, trace := [] }

/-- The result of copying the 3 bytes of `counting_world 3` without write optimization,
when no sync is issued. -/
def plain_result : ShovelResult :=
  { ok := true
    stats := { blocks_written := 1, blocks_omitted := 0, bytes_written := 3, bytes_omitted := 0,
               total_bytes := 3 }
    error := 0
    world := { input := [], in_script := [], out := [1, 2, 3], out_pos := 3, out_script := [],
               errno := 0, trace := [Event.write 3] } }

/-- The result of copying the 3 bytes of `counting_world 3`, write-optimized, with a sync
every 2 bytes. -/
def synced_result : ShovelResult :=
  { ok := true
    stats := { blocks_written := 1, blocks_omitted := 0, bytes_written := 3, bytes_omitted := 0,
               total_bytes := 3 }
    error := 0
    world := { input := [], in_script := [], out := [1, 2, 3], out_pos := 3, out_script := [],
               errno := 0, trace := [Event.lseek 0, Event.write 3, Event.fsync] } }

/-- The result of `main` on `counting_world 3` with `--write-everything`,
`--input-size 3` and `--fsync-interval 0`. -/
def zero_copy_result : MainResult :=
  { exit_code := 0
    engine := some (Engine.zero_copy 3 3)
    stats := { blocks_written := 0, blocks_omitted := 0, bytes_written := 0, bytes_omitted := 0,
               total_bytes := 3 }
    world := { input := [], in_script := [], out := [1, 2, 3], out_pos := 3, out_script := [],
               errno := 0, trace := [Event.sendfile 3] } }

/-- The length still to copy and the accumulator after an iteration that goes on. -/
def IterResult.pending : IterResult → Option (Int × Nat)
  | IterResult.next s => some (s.len, s.n_unsynced)
  | IterResult.ret _ => none

/-! # Theorems -/

/-! ## Buffers -/

theorem Buffer.store_nil (buf : Buffer) (off : Nat) : buf.store off [] = buf := by
  funext i
  simp [Buffer.store]

theorem Buffer.store_append (buf : Buffer) (off : Nat) (d1 d2 : List Byte) :
    (buf.store off d1).store (off + d1.length) d2 = buf.store off (d1 ++ d2) := by
  funext i
  simp only [Buffer.store, List.length_append]
  by_cases h1 : off + d1.length ≤ i ∧ i < off + d1.length + d2.length
  · have h2 : off ≤ i ∧ i < off + (d1.length + d2.length) := by omega
    rw [if_pos h1, if_pos h2]
    have h3 : i - off = d1.length + (i - (off + d1.length)) := by omega
    rw [h3, List.getD_append_right _ _ _ _ (by omega)]
    simp
  · rw [if_neg h1]
    by_cases h2 : off ≤ i ∧ i < off + d1.length
    · have h3 : off ≤ i ∧ i < off + (d1.length + d2.length) := by omega
      rw [if_pos h2, if_pos h3, List.getD_append _ _ _ _ (by omega)]
    · have h3 : ¬ (off ≤ i ∧ i < off + (d1.length + d2.length)) := by omega
      rw [if_neg h2, if_neg h3]

theorem Buffer.load_store (buf : Buffer) (off : Nat) (d : List Byte) :
    (buf.store off d).load off d.length = d := by
  apply List.ext_getElem
  · simp [Buffer.load]
  · intro i h1 h2
    simp [Buffer.load, Buffer.store] at h1 ⊢
    simp [h1]


/-! ## System calls -/

theorem no_fail_drop {s : List Outcome} (h : no_fail s) (j : Nat) : no_fail (s.drop j) :=
  fun o ho => h o (List.mem_of_mem_drop ho)

theorem no_fail_tail {s : List Outcome} (h : no_fail s) : no_fail s.tail := by
  rw [← List.drop_one]; exact no_fail_drop h 1

theorem script_head_fail {s : List Outcome} {e : Nat} (h : script_head s = Outcome.fail e) :
    ¬ no_fail s := by
  intro hn
  cases s with
  | nil => simp [script_head] at h
  | cons o rest =>
    simp [script_head] at h
    have := hn o (by simp)
    simp [h, Outcome.is_fail] at this

theorem granted_le_count (o : Outcome) (count avail : Nat) : granted o count avail ≤ count := by
  cases o <;> simp [granted]

theorem granted_le_avail (o : Outcome) (count avail : Nat) : granted o count avail ≤ avail := by
  cases o <;> simp [granted]

theorem granted_eq_zero {o : Outcome} {count avail : Nat} (h : granted o count avail = 0) :
    count = 0 ∨ avail = 0 := by
  cases o <;> simp [granted] at h <;> omega

theorem sys_read_in_fail {w : World} {e : Nat} (h : script_head w.in_script = Outcome.fail e)
    (buf : Buffer) (off count : Nat) :
    sys_read w Fd.in_fd buf off count =
      (-1, buf, { w with in_script := w.in_script.tail, errno := e }) := by
  simp [sys_read, h]

theorem sys_read_in_ok {w : World} (h : ∀ e, script_head w.in_script ≠ Outcome.fail e)
    (buf : Buffer) (off count : Nat) :
    sys_read w Fd.in_fd buf off count =
      (((granted (script_head w.in_script) count w.input.length : Nat) : Int),
        buf.store off (w.input.take (granted (script_head w.in_script) count w.input.length)),
        { w with in_script := w.in_script.tail,
                 input := w.input.drop (granted (script_head w.in_script) count w.input.length) }) := by
  unfold sys_read
  simp only


theorem sys_read_out_fail {w : World} {e : Nat} (h : script_head w.out_script = Outcome.fail e)
    (buf : Buffer) (off count : Nat) :
    sys_read w Fd.out_fd buf off count =
      (-1, buf, { w with out_script := w.out_script.tail, errno := e }) := by
  simp [sys_read, h]

theorem sys_read_out_ok {w : World} (h : ∀ e, script_head w.out_script ≠ Outcome.fail e)
    (buf : Buffer) (off count : Nat) :
    sys_read w Fd.out_fd buf off count =
      (((granted (script_head w.out_script) count (w.out.length - w.out_pos) : Nat) : Int),
        buf.store off ((w.out.drop w.out_pos).take
          (granted (script_head w.out_script) count (w.out.length - w.out_pos))),
        { w with out_script := w.out_script.tail,
                 out_pos := w.out_pos +
                   granted (script_head w.out_script) count (w.out.length - w.out_pos) }) := by
  unfold sys_read
  simp only

theorem sys_write_out_fail {w : World} {e : Nat} (h : script_head w.out_script = Outcome.fail e)
    (buf : Buffer) (off count : Nat) :
    sys_write w Fd.out_fd buf off count =
      (-1, buf, { w with out_script := w.out_script.tail, errno := e,
                         trace := w.trace ++ [Event.write count] }) := by
  simp [sys_write, h]

theorem sys_write_out_ok {w : World} (h : ∀ e, script_head w.out_script ≠ Outcome.fail e)
    (buf : Buffer) (off count : Nat) :
    sys_write w Fd.out_fd buf off count =
      (((granted (script_head w.out_script) count count : Nat) : Int), buf,
        { w with out_script := w.out_script.tail,
                 out := file_write w.out w.out_pos
                   (buf.load off (granted (script_head w.out_script) count count)),
                 out_pos := w.out_pos + granted (script_head w.out_script) count count,
                 trace := w.trace ++ [Event.write count] }) := by
  unfold sys_write
  simp only

theorem script_head_cases (s : List Outcome) :
    (∃ e, script_head s = Outcome.fail e) ∨ (∀ e, script_head s ≠ Outcome.fail e) := by
  cases h : script_head s with
  | fail e => exact Or.inl ⟨e, rfl⟩
  | full => exact Or.inr (fun e => by simp)
  | short k => exact Or.inr (fun e => by simp)

theorem no_fail_script_head {s : List Outcome} (h : no_fail s) (e : Nat) :
    script_head s ≠ Outcome.fail e :=
  fun he => script_head_fail he h

theorem to_uintmax_of_nat {n : Nat} (h : n < 2 ^ 64) : to_uintmax (n : Int) = n := by
  unfold to_uintmax
  have : ((n : Int) % 2 ^ 64) = n := Int.emod_eq_of_lt (by omega) (by exact_mod_cast h)
  rw [this]; simp

theorem to_uintmax_sub {a b : Nat} (hb : b ≤ a) (ha : a < 2 ^ 64) :
    to_uintmax ((a : Int) - (b : Int)) = a - b := by
  have : ((a : Int) - (b : Int)) = ((a - b : Nat) : Int) := by omega
  rw [this]; exact to_uintmax_of_nat (by omega)

theorem to_uintmax_add {a b : Nat} (h : a + b < 2 ^ 64) :
    to_uintmax ((a : Int) + (b : Int)) = a + b := by
  have : ((a : Int) + (b : Int)) = ((a + b : Nat) : Int) := by omega
  rw [this]; exact to_uintmax_of_nat h


/-! ## `buf_io` on the three calls the program makes -/

theorem buf_io_loop_read_in (len : Nat) (hlen : len < 2 ^ 64) :
    ∀ (fuel : Nat) (w : World) (buf : Buffer) (rem : Nat), rem ≤ len → rem < fuel →
    ∃ (n_done : Int) (k j e : Nat),
      buf_io_loop sys_read Fd.in_fd len fuel w buf rem =
        some (n_done, rem - k, buf.store (len - rem) (w.input.take k),
          { w with input := w.input.drop k, in_script := w.in_script.drop j, errno := e }) ∧
      k ≤ rem ∧ k ≤ w.input.length ∧ (n_done = -1 ∨ 0 ≤ n_done) ∧
      (n_done = -1 → ¬ no_fail w.in_script) ∧
      (0 ≤ n_done → e = w.errno ∧ (k < rem → w.input.length = k)) := by
  intro fuel
  induction fuel with
  | zero => intro w buf rem _ h; omega
  | succ fuel ih =>
    intro w buf rem hrem hfuel
    rcases script_head_cases w.in_script with ⟨e, he⟩ | hok
    · refine ⟨-1, 0, 1, e, ?_, by omega, by omega, Or.inl rfl, fun _ => script_head_fail he, ?_⟩
      · simp [buf_io_loop, sys_read_in_fail he, Buffer.store_nil]
      · intro h; omega
    · generalize hn : granted (script_head w.in_script) rem w.input.length = n
      have hn1 : n ≤ rem := hn ▸ granted_le_count _ _ _
      have hn2 : n ≤ w.input.length := hn ▸ granted_le_avail _ _ _
      by_cases hpos : 0 < n
      · by_cases hcont : 0 < rem - n
        · obtain ⟨n_done, k, j, e, h1, h2, h3, h4, h5, h6⟩ :=
            ih { w with in_script := w.in_script.tail, input := w.input.drop n }
              (buf.store (len - rem) (w.input.take n)) (rem - n) (by omega) (by omega)
          refine ⟨n_done, n + k, j + 1, e, ?_, by omega, ?_, h4, ?_, ?_⟩
          · rw [buf_io_loop]
            simp only [sys_read_in_ok hok, hn]
            rw [to_uintmax_sub hn1 (by omega)]
            have hc : ((n : Int) > 0 ∧ (if (n : Int) > 0 then rem - n else rem) > 0 ∧ len > 0) := by
              refine ⟨by exact_mod_cast hpos, ?_, by omega⟩
              rw [if_pos (by exact_mod_cast hpos)]; exact hcont
            rw [if_pos hc, if_pos (by exact_mod_cast hpos), h1]
            have e1 : len - (rem - n) = (len - rem) + (w.input.take n).length := by
              rw [List.length_take]; omega
            rw [e1, Buffer.store_append, ← List.take_add]
            simp [Nat.sub_sub, List.drop_drop, Nat.add_comm]
          · simp at h3; omega
          · intro h; have := h5 h
            intro hnf; exact this (no_fail_tail hnf)
          · intro h
            obtain ⟨h7, h8⟩ := h6 h
            refine ⟨h7, fun hk => ?_⟩
            have := h8 (by omega)
            simp at this; omega
        · refine ⟨n, n, 1, w.errno, ?_, hn1, hn2, Or.inr (by omega), ?_, ?_⟩
          · rw [buf_io_loop]
            simp only [sys_read_in_ok hok, hn]
            rw [to_uintmax_sub hn1 (by omega)]
            have hc : ¬ ((n : Int) > 0 ∧ (if (n : Int) > 0 then rem - n else rem) > 0 ∧ len > 0) := by
              rw [if_pos (by exact_mod_cast hpos)]; omega
            rw [if_neg hc, if_pos (by exact_mod_cast hpos)]
            simp
          · intro h; omega
          · intro _; exact ⟨rfl, fun h => by omega⟩
      · have hz : n = 0 := by omega
        subst hz
        refine ⟨0, 0, 1, w.errno, ?_, by omega, by omega, Or.inr (by omega), ?_, ?_⟩
        · rw [buf_io_loop]
          simp [sys_read_in_ok hok, hn, Buffer.store_nil]
        · intro h; omega
        · intro _
          refine ⟨rfl, fun h => ?_⟩
          rcases granted_eq_zero hn with h0 | h0 <;> omega


theorem buf_io_read_in (w : World) (buf : Buffer) (len : Nat) (hlen : len < 2 ^ 64) :
    ∃ (r : Int) (k j e : Nat),
      buf_io sys_read w Fd.in_fd buf len =
        some (r, buf.store 0 (w.input.take k),
          { w with input := w.input.drop k, in_script := w.in_script.drop j, errno := e }) ∧
      k ≤ len ∧ k ≤ w.input.length ∧
      (r = -1 ∨ (r = (k : Int) ∧ e = w.errno ∧ (k < len → w.input.length = k))) ∧
      (r = -1 → ¬ no_fail w.in_script) := by
  obtain ⟨n_done, k, j, e, h1, h2, h3, h4, h5, h6⟩ :=
    buf_io_loop_read_in len hlen (len + 1) w buf len (le_refl _) (by omega)
  rcases h4 with h4 | h4
  · refine ⟨-1, k, j, e, ?_, h2, h3, Or.inl rfl, fun _ => h5 h4⟩
    simp [buf_io, h1, h4]
  · obtain ⟨h7, h8⟩ := h6 h4
    refine ⟨(k : Int), k, j, e, ?_, h2, h3, Or.inr ⟨rfl, h7, h8⟩, fun h => by omega⟩
    have : ¬ n_done < 0 := by omega
    simp [buf_io, h1, this]
    omega

theorem buf_io_loop_read_out (len : Nat) (hlen : len < 2 ^ 64) :
    ∀ (fuel : Nat) (w : World) (buf : Buffer) (rem : Nat), rem ≤ len → rem < fuel →
    ∃ (n_done : Int) (k j e : Nat),
      buf_io_loop sys_read Fd.out_fd len fuel w buf rem =
        some (n_done, rem - k, buf.store (len - rem) ((w.out.drop w.out_pos).take k),
          { w with out_pos := w.out_pos + k, out_script := w.out_script.drop j, errno := e }) ∧
      k ≤ rem ∧ k ≤ w.out.length - w.out_pos ∧ (n_done = -1 ∨ 0 ≤ n_done) ∧
      (n_done = -1 → ¬ no_fail w.out_script) ∧
      (0 ≤ n_done → e = w.errno ∧ (k < rem → w.out.length - w.out_pos = k)) := by
  intro fuel
  induction fuel with
  | zero => intro w buf rem _ h; omega
  | succ fuel ih =>
    intro w buf rem hrem hfuel
    rcases script_head_cases w.out_script with ⟨e, he⟩ | hok
    · refine ⟨-1, 0, 1, e, ?_, by omega, by omega, Or.inl rfl, fun _ => script_head_fail he, ?_⟩
      · simp [buf_io_loop, sys_read_out_fail he, Buffer.store_nil]
      · intro h; omega
    · generalize hn : granted (script_head w.out_script) rem (w.out.length - w.out_pos) = n
      have hn1 : n ≤ rem := hn ▸ granted_le_count _ _ _
      have hn2 : n ≤ w.out.length - w.out_pos := hn ▸ granted_le_avail _ _ _
      by_cases hpos : 0 < n
      · by_cases hcont : 0 < rem - n
        · obtain ⟨n_done, k, j, e, h1, h2, h3, h4, h5, h6⟩ :=
            ih { w with out_script := w.out_script.tail, out_pos := w.out_pos + n }
              (buf.store (len - rem) ((w.out.drop w.out_pos).take n)) (rem - n)
              (by omega) (by omega)
          refine ⟨n_done, n + k, j + 1, e, ?_, by omega, ?_, h4, ?_, ?_⟩
          · rw [buf_io_loop]
            simp only [sys_read_out_ok hok, hn]
            rw [to_uintmax_sub hn1 (by omega)]
            have hc : ((n : Int) > 0 ∧ (if (n : Int) > 0 then rem - n else rem) > 0 ∧ len > 0) := by
              refine ⟨by exact_mod_cast hpos, ?_, by omega⟩
              rw [if_pos (by exact_mod_cast hpos)]; exact hcont
            rw [if_pos hc, if_pos (by exact_mod_cast hpos), h1]
            have e1 : len - (rem - n) = (len - rem) + ((w.out.drop w.out_pos).take n).length := by
              rw [List.length_take, List.length_drop]; omega
            rw [e1, Buffer.store_append]
            have e2 : List.drop (w.out_pos + n) w.out = List.drop n (List.drop w.out_pos w.out) := by
              rw [List.drop_drop, Nat.add_comm]
            simp only [e2, ← List.take_add]
            simp [Nat.sub_sub, Nat.add_comm, Nat.add_assoc]
            omega
          · simp at h3; omega
          · intro h; have := h5 h
            intro hnf; exact this (no_fail_tail hnf)
          · intro h
            obtain ⟨h7, h8⟩ := h6 h
            refine ⟨h7, fun hk => ?_⟩
            have := h8 (by omega)
            simp at this; omega
        · refine ⟨n, n, 1, w.errno, ?_, hn1, hn2, Or.inr (by omega), ?_, ?_⟩
          · rw [buf_io_loop]
            simp only [sys_read_out_ok hok, hn]
            rw [to_uintmax_sub hn1 (by omega)]
            have hc : ¬ ((n : Int) > 0 ∧ (if (n : Int) > 0 then rem - n else rem) > 0 ∧ len > 0) := by
              rw [if_pos (by exact_mod_cast hpos)]; omega
            rw [if_neg hc, if_pos (by exact_mod_cast hpos)]
            simp
          · intro h; omega
          · intro _; exact ⟨rfl, fun h => by omega⟩
      · have hz : n = 0 := by omega
        subst hz
        refine ⟨0, 0, 1, w.errno, ?_, by omega, by omega, Or.inr (by omega), ?_, ?_⟩
        · rw [buf_io_loop]
          simp [sys_read_out_ok hok, hn, Buffer.store_nil]
        · intro h; omega
        · intro _
          refine ⟨rfl, fun h => ?_⟩
          rcases granted_eq_zero hn with h0 | h0 <;> omega

theorem buf_io_read_out (w : World) (buf : Buffer) (len : Nat) (hlen : len < 2 ^ 64) :
    ∃ (r : Int) (k j e : Nat),
      buf_io sys_read w Fd.out_fd buf len =
        some (r, buf.store 0 ((w.out.drop w.out_pos).take k),
          { w with out_pos := w.out_pos + k, out_script := w.out_script.drop j, errno := e }) ∧
      k ≤ len ∧ k ≤ w.out.length - w.out_pos ∧
      (r = -1 ∨ (r = (k : Int) ∧ e = w.errno ∧ (k < len → w.out.length - w.out_pos = k))) ∧
      (r = -1 → ¬ no_fail w.out_script) := by
  obtain ⟨n_done, k, j, e, h1, h2, h3, h4, h5, h6⟩ :=
    buf_io_loop_read_out len hlen (len + 1) w buf len (le_refl _) (by omega)
  rcases h4 with h4 | h4
  · refine ⟨-1, k, j, e, ?_, h2, h3, Or.inl rfl, fun _ => h5 h4⟩
    simp [buf_io, h1, h4]
  · obtain ⟨h7, h8⟩ := h6 h4
    refine ⟨(k : Int), k, j, e, ?_, h2, h3, Or.inr ⟨rfl, h7, h8⟩, fun h => by omega⟩
    have : ¬ n_done < 0 := by omega
    simp [buf_io, h1, this]
    omega


theorem Buffer.load_length (buf : Buffer) (off n : Nat) : (buf.load off n).length = n := by
  simp [Buffer.load]

theorem Buffer.load_add (buf : Buffer) (off a b : Nat) :
    buf.load off (a + b) = buf.load off a ++ buf.load (off + a) b := by
  simp [Buffer.load, List.range_add, Nat.add_assoc]

theorem Buffer.load_eq_nil {buf : Buffer} {off n : Nat} : buf.load off n = [] ↔ n = 0 := by
  simp [Buffer.load]

theorem file_write_nil (out : List Byte) (pos : Nat) : file_write out pos [] = out := by
  simp [file_write]

theorem file_write_append (out : List Byte) (pos : Nat) (d1 d2 : List Byte) :
    file_write (file_write out pos d1) (pos + d1.length) d2 = file_write out pos (d1 ++ d2) := by
  by_cases h1 : d1 = []
  · subst h1; simp [file_write_nil]
  by_cases h2 : d2 = []
  · subst h2; simp [file_write_nil]
  have h3 : d1 ++ d2 ≠ [] := by simp [h1]
  simp only [file_write, if_neg h1, if_neg h2, if_neg h3]
  have hl : (out.take pos ++ List.replicate (pos - out.length) 0 ++ d1).length = pos + d1.length := by
    simp; omega
  rw [List.take_left' hl]
  have hd : List.drop (pos + d1.length + d2.length)
      (out.take pos ++ List.replicate (pos - out.length) 0 ++ d1 ++ out.drop (pos + d1.length)) =
      out.drop (pos + (d1 ++ d2).length) := by
    rw [← hl, List.drop_append, List.drop_drop, hl]
    simp [Nat.add_assoc, Nat.add_comm]
  rw [hd]
  have hz : pos + d1.length - (out.take pos ++ List.replicate (pos - out.length) 0 ++ d1 ++
      out.drop (pos + d1.length)).length = 0 := by
    simp; omega
  rw [hz]
  simp

/-- Writing at an offset inside the file replaces the bytes there. -/
theorem file_write_at (a d b : List Byte) :
    file_write (a ++ b) a.length d = a ++ d ++ b.drop d.length := by
  by_cases h : d = []
  · subst h; simp [file_write_nil]
  simp only [file_write, if_neg h]
  simp [List.take_append_eq_append_take, List.drop_append_eq_append_drop, List.drop_drop,
    Nat.add_comm]


theorem granted_self_pos {o : Outcome} {count : Nat} (h : 0 < count) : 0 < granted o count count := by
  cases o <;> simp [granted] <;> omega

theorem buf_io_loop_write (len : Nat) (hlen : len < 2 ^ 64) :
    ∀ (fuel : Nat) (w : World) (buf : Buffer) (rem : Nat), rem ≤ len → rem < fuel →
    ∃ (n_done : Int) (k j e : Nat) (t : List Event),
      buf_io_loop sys_write Fd.out_fd len fuel w buf rem =
        some (n_done, rem - k, buf,
          { w with out := file_write w.out w.out_pos (buf.load (len - rem) k),
                   out_pos := w.out_pos + k, out_script := w.out_script.drop j, errno := e,
                   trace := w.trace ++ t }) ∧
      k ≤ rem ∧ (n_done = -1 ∨ 0 ≤ n_done) ∧
      (n_done = -1 → ¬ no_fail w.out_script) ∧
      (0 ≤ n_done → e = w.errno ∧ k = rem) ∧
      (∀ ev ∈ t, ∃ c, ev = Event.write c) := by
  intro fuel
  induction fuel with
  | zero => intro w buf rem _ h; omega
  | succ fuel ih =>
    intro w buf rem hrem hfuel
    rcases script_head_cases w.out_script with ⟨e, he⟩ | hok
    · refine ⟨-1, 0, 1, e, [Event.write rem], ?_, by omega, Or.inl rfl,
        fun _ => script_head_fail he, ?_, ?_⟩
      · simp [buf_io_loop, sys_write_out_fail he, Buffer.load, file_write_nil]
      · intro h; omega
      · intro ev hev; exact ⟨rem, by simpa using hev⟩
    · generalize hn : granted (script_head w.out_script) rem rem = n
      have hn1 : n ≤ rem := hn ▸ granted_le_count _ _ _
      by_cases hpos : 0 < n
      · by_cases hcont : 0 < rem - n
        · obtain ⟨n_done, k, j, e, t, h1, h2, h4, h5, h6, h7⟩ :=
            ih { w with out_script := w.out_script.tail,
                        out := file_write w.out w.out_pos (buf.load (len - rem) n),
                        out_pos := w.out_pos + n,
                        trace := w.trace ++ [Event.write rem] }
              buf (rem - n) (by omega) (by omega)
          refine ⟨n_done, n + k, j + 1, e, Event.write rem :: t, ?_, by omega, h4, ?_, ?_, ?_⟩
          · rw [buf_io_loop]
            simp only [sys_write_out_ok hok, hn]
            rw [to_uintmax_sub hn1 (by omega)]
            have hc : ((n : Int) > 0 ∧ (if (n : Int) > 0 then rem - n else rem) > 0 ∧ len > 0) := by
              refine ⟨by exact_mod_cast hpos, ?_, by omega⟩
              rw [if_pos (by exact_mod_cast hpos)]; exact hcont
            rw [if_pos hc, if_pos (by exact_mod_cast hpos), h1]
            have e1 : len - (rem - n) = (len - rem) + n := by omega
            have e2 : w.out_pos + n = w.out_pos + (buf.load (len - rem) n).length := by
              rw [Buffer.load_length]
            simp only [e1]
            rw [Buffer.load_add]
            conv_lhs => rw [e2, file_write_append]
            simp [Nat.sub_sub, Nat.add_assoc, Buffer.load_length]
          · intro h; have := h5 h
            intro hnf; exact this (no_fail_tail hnf)
          · intro h
            obtain ⟨h8, h9⟩ := h6 h
            exact ⟨h8, by omega⟩
          · intro ev hev
            rcases List.mem_cons.mp hev with h | h
            · exact ⟨rem, h⟩
            · exact h7 ev h
        · refine ⟨n, n, 1, w.errno, [Event.write rem], ?_, hn1, Or.inr (by omega), ?_, ?_, ?_⟩
          · rw [buf_io_loop]
            simp only [sys_write_out_ok hok, hn]
            rw [to_uintmax_sub hn1 (by omega)]
            have hc : ¬ ((n : Int) > 0 ∧ (if (n : Int) > 0 then rem - n else rem) > 0 ∧ len > 0) := by
              rw [if_pos (by exact_mod_cast hpos)]; omega
            rw [if_neg hc, if_pos (by exact_mod_cast hpos)]
            simp
          · intro h; omega
          · intro _; exact ⟨rfl, by omega⟩
          · intro ev hev; exact ⟨rem, by simpa using hev⟩
      · have hz : n = 0 := by omega
        subst hz
        have hr : rem = 0 := by
          by_contra h
          have := @granted_self_pos (script_head w.out_script) rem (by omega)
          omega
        refine ⟨0, 0, 1, w.errno, [Event.write rem], ?_, by omega, Or.inr (by omega), ?_, ?_, ?_⟩
        · rw [buf_io_loop]
          simp [sys_write_out_ok hok, hn, Buffer.load, file_write_nil]
        · intro h; omega
        · intro _; exact ⟨rfl, by omega⟩
        · intro ev hev; exact ⟨rem, by simpa using hev⟩

theorem buf_io_write (w : World) (buf : Buffer) (len : Nat) (hlen : len < 2 ^ 64) :
    ∃ (r : Int) (k j e : Nat) (t : List Event),
      buf_io sys_write w Fd.out_fd buf len =
        some (r, buf,
          { w with out := file_write w.out w.out_pos (buf.load 0 k),
                   out_pos := w.out_pos + k, out_script := w.out_script.drop j, errno := e,
                   trace := w.trace ++ t }) ∧
      k ≤ len ∧
      (r = -1 ∨ (r = (len : Int) ∧ e = w.errno ∧ k = len)) ∧
      (r = -1 → ¬ no_fail w.out_script) ∧
      (∀ ev ∈ t, ∃ c, ev = Event.write c) := by
  obtain ⟨n_done, k, j, e, t, h1, h2, h4, h5, h6, h7⟩ :=
    buf_io_loop_write len hlen (len + 1) w buf len (le_refl _) (by omega)
  rcases h4 with h4 | h4
  · refine ⟨-1, k, j, e, t, ?_, h2, Or.inl rfl, fun _ => h5 h4, h7⟩
    simp [buf_io, h1, h4]
  · obtain ⟨h8, h9⟩ := h6 h4
    refine ⟨(len : Int), k, j, e, t, ?_, h2, Or.inr ⟨rfl, h8, h9⟩, fun h => by omega, h7⟩
    have : ¬ n_done < 0 := by omega
    simp [buf_io, h1, this]
    omega


/-! ## One iteration of `shovel_data` -/

theorem sys_fsync_world (w : World) :
    ∃ e, (sys_fsync w).2 =
      { w with out_script := w.out_script.tail, errno := e, trace := w.trace ++ [Event.fsync] } := by
  unfold sys_fsync
  split
  · exact ⟨_, rfl⟩
  · exact ⟨_, rfl⟩

theorem MIN_SIZE_block {len : Int} (h0 : 0 < len) (h1 : len < 2 ^ 63) :
    MIN_SIZE BLOCK_SIZE len = min BLOCK_SIZE len.toNat := by
  obtain ⟨n, rfl⟩ := Int.eq_ofNat_of_zero_le (le_of_lt h0)
  have hn : n < 2 ^ 63 := by exact_mod_cast h1
  have hb : to_uintmax ((BLOCK_SIZE : Nat) : Int) = BLOCK_SIZE :=
    to_uintmax_of_nat (by norm_num [BLOCK_SIZE])
  have hl : to_uintmax (n : Int) = n := to_uintmax_of_nat (by omega)
  simp only [MIN_SIZE, hb, hl, MIN, SIZE_MAX, Int.toNat_ofNat]
  have hB : BLOCK_SIZE = 1048576 := by norm_num [BLOCK_SIZE]
  rw [hB]
  split <;> split <;> omega

theorem shovel_write_spec (fsync_interval : Nat) (s : ShovelState) (k : Nat) (hk : k < 2 ^ 64) :
    ∃ res, shovel_write fsync_interval s (k : Int) = some res ∧
      ((∃ r, res = IterResult.ret r ∧ r.ok = false ∧ r.stats = s.stats ∧
          r.world.input = s.world.input ∧ ¬ no_fail s.world.out_script ∧
          ∃ tw : List Event, (∀ ev ∈ tw, ∃ c, ev = Event.write c) ∧
            r.world.trace = s.world.trace ++ tw) ∨
       (∃ s1, res = IterResult.next s1 ∧ WriteStep fsync_interval s s1 k)) := by
  obtain ⟨r, k', j, e, t, h1, h2, h3, h4, h5⟩ := buf_io_write s.world s.buffer k hk
  unfold shovel_write
  simp only [Int.toNat_ofNat, h1]
  rcases h3 with h3 | ⟨h3, h6, h7⟩
  · have : r ≠ (k : Int) := by omega
    rw [if_pos this]
    exact ⟨_, rfl, Or.inl ⟨_, rfl, rfl, rfl, rfl, h4 h3, t, h5, rfl⟩⟩
  · have : ¬ r ≠ (k : Int) := by simp [h3]
    rw [if_neg this]
    subst h7 h3
    by_cases hf : fsync_interval ≠ 0
    · rw [if_pos hf]
      by_cases hs : to_uintmax (s.n_unsynced + (k' : Int)) ≥ fsync_interval
      · rw [if_pos hs]
        obtain ⟨e', he'⟩ := sys_fsync_world
          { s.world with out := file_write s.world.out s.world.out_pos (s.buffer.load 0 k'),
                         out_pos := s.world.out_pos + k',
                         out_script := s.world.out_script.drop j, errno := e,
                         trace := s.world.trace ++ t }
        refine ⟨_, rfl, Or.inr ⟨_, rfl, ?_⟩⟩
        constructor <;> simp only [he', if_pos hf, if_pos hs, if_pos (And.intro hf hs)]
        · exact ⟨j + 1, by rw [List.tail_drop]⟩
        · exact ⟨t, h5, rfl⟩
      · rw [if_neg hs]
        refine ⟨_, rfl, Or.inr ⟨_, rfl, ?_⟩⟩
        constructor <;> simp only [if_pos hf, if_neg hs]
        · exact ⟨j, rfl⟩
        · exact ⟨t, h5, by simp [hs]⟩
    · rw [if_neg hf]
      refine ⟨_, rfl, Or.inr ⟨_, rfl, ?_⟩⟩
      constructor <;> simp only [if_neg hf]
      · exact ⟨j, rfl⟩
      · exact ⟨t, h5, by simp [hf]⟩


theorem sys_lseek_back (w : World) (k : Nat) :
    ∃ (r : Int) (e p : Nat),
      sys_lseek_cur { w with out_pos := w.out_pos + k } (-(k : Int)) =
        (r, { w with out_pos := p, out_script := w.out_script.tail, errno := e,
                     trace := w.trace ++ [Event.lseek (-(k : Int))] }) ∧
      (r ≠ -1 → p = w.out_pos) ∧ (r = -1 → ¬ no_fail w.out_script) := by
  unfold sys_lseek_cur
  have h : ¬ (((w.out_pos + k : Nat) : Int) + -(k : Int) < 0) := by omega
  have h2 : (((w.out_pos + k : Nat) : Int) + -(k : Int)).toNat = w.out_pos := by omega
  split
  · rename_i e he
    exact ⟨_, _, _, rfl, fun h => absurd rfl h, fun _ => script_head_fail he⟩
  · simp only [if_neg h, h2]
    exact ⟨_, _, _, rfl, fun _ => rfl, fun h => by omega⟩

theorem not_no_fail_of_drop {s : List Outcome} {j : Nat} (h : ¬ no_fail (s.drop j)) :
    ¬ no_fail s :=
  fun hn => h (no_fail_drop hn j)

theorem shovel_iter_spec (write_optimized : Bool) (fsync_interval : Nat) (s : ShovelState)
    (hpos : 0 < s.len) (hlt : s.len < 2 ^ 63) :
    ∃ res, shovel_iter write_optimized fsync_interval s = some res ∧
      ((∃ r, res = IterResult.ret r ∧ r.ok = false ∧ r.stats = s.stats ∧
          r.world.input.length ≤ s.world.input.length ∧
          (¬ no_fail s.world.in_script ∨ ¬ no_fail s.world.out_script ∨ s.world.input = []) ∧
          ∃ t : List Event, (∀ ev ∈ t, ev ≠ Event.fsync) ∧
            r.world.trace = s.world.trace ++ t) ∨
       (∃ s1 n, res = IterResult.next s1 ∧ IterStep write_optimized fsync_interval s s1 n)) := by
  have hM := MIN_SIZE_block hpos hlt
  have hB : BLOCK_SIZE = 1048576 := by norm_num [BLOCK_SIZE]
  have hreq : min BLOCK_SIZE s.len.toNat < 2 ^ 64 := by omega
  obtain ⟨r, k, j, e, h1, h2, h3, h4, h5⟩ :=
    buf_io_read_in s.world s.buffer (min BLOCK_SIZE s.len.toNat) hreq
  unfold shovel_iter
  simp only [hM, h1]
  rcases h4 with h4 | ⟨h4, h6, h7⟩
  · rw [if_pos (by omega)]
    refine ⟨_, rfl, Or.inl ⟨_, rfl, rfl, rfl, ?_, Or.inl (h5 h4), [], by simp, by simp⟩⟩
    simp
  subst h4 h6
  rw [if_neg (by omega)]
  by_cases hk0 : k = 0
  · rw [if_pos ⟨by omega, hpos⟩]
    refine ⟨_, rfl, Or.inl ⟨_, rfl, rfl, rfl, ?_, Or.inr (Or.inr ?_), [], by simp, by simp⟩⟩
    · simp
    · apply List.length_eq_zero.mp
      rw [h7 (by omega)]; exact hk0
  rw [if_neg (by omega)]
  have hload : (s.buffer.store 0 (s.world.input.take k)).load 0 k = s.world.input.take k := by
    have := Buffer.load_store s.buffer 0 (s.world.input.take k)
    rwa [List.length_take, Nat.min_eq_left h3] at this
  cases write_optimized with
  | false =>
    simp only [Bool.false_eq_true, if_false]
    obtain ⟨res, hres, hcase⟩ := shovel_write_spec fsync_interval
      { s with world := { s.world with input := s.world.input.drop k,
                                       in_script := s.world.in_script.drop j, errno := s.world.errno },
               buffer := s.buffer.store 0 (s.world.input.take k) } k (by omega)
    refine ⟨res, hres, ?_⟩
    rcases hcase with ⟨r, hr, h8, h9, h10, h11, tf, htf, htrf⟩ | ⟨s1, hs1, hw⟩
    · refine Or.inl ⟨r, hr, h8, h9, ?_, Or.inr (Or.inl h11), tf, ?_, htrf⟩
      · rw [h10]; simp
      · intro ev hev hfs
        obtain ⟨c, hc⟩ := htf ev hev
        rw [hc] at hfs; cases hfs
    · refine Or.inr ⟨s1, k, hs1, ?_⟩
      obtain ⟨tw, htw, htr⟩ := hw.trace_eq
      exact
        { n_pos := by omega
          n_le := h2
          n_le_input := h3
          short_eof := h7
          input_eq := hw.input_eq
          in_script_eq := ⟨j, hw.in_script_eq⟩
          out_script_eq := hw.out_script_eq
          out_pos_eq := hw.out_pos_eq
          len_eq := hw.len_eq
          error_eq := hw.error_eq
          total_eq := by rw [hw.stats_eq]
          bytes_omitted_eq := by rw [hw.stats_eq]
          kind := Or.inr ⟨by rw [hw.out_eq]; simp only [hload], (fun h => Bool.noConfusion h),
            by rw [hw.stats_eq], by rw [hw.stats_eq], by rw [hw.stats_eq], hw.n_unsynced_eq,
            [], tw, by simp, htw, by simpa using htr⟩ }
  | true =>
    simp only [if_true]
    obtain ⟨r', k', j', e', g1, g2, g3, g4, g5⟩ :=
      buf_io_read_out { s.world with input := s.world.input.drop k,
                                     in_script := s.world.in_script.drop j, errno := s.world.errno }
        s.out_fd_buffer (min BLOCK_SIZE s.len.toNat) hreq
    simp only [g1]
    rcases g4 with g4 | ⟨g4, g6, g7⟩
    · rw [if_pos (by omega)]
      refine ⟨_, rfl, Or.inl ⟨_, rfl, rfl, rfl, ?_, Or.inr (Or.inl (g5 g4)), [], by simp,
        by simp⟩⟩
      simp
    subst g4 g6
    rw [if_neg (by omega)]
    simp only at g3 g7
    have hload' : (s.out_fd_buffer.store 0 ((s.world.out.drop s.world.out_pos).take k')).load 0 k' =
        (s.world.out.drop s.world.out_pos).take k' := by
      have := Buffer.load_store s.out_fd_buffer 0 ((s.world.out.drop s.world.out_pos).take k')
      rwa [List.length_take, List.length_drop, Nat.min_eq_left g3] at this
    by_cases hcmp : ((k : Int) = (k' : Int) ∧
        memcmp_eq (s.buffer.store 0 (s.world.input.take k))
          (s.out_fd_buffer.store 0 ((s.world.out.drop s.world.out_pos).take k'))
          ((k : Int).toNat) = true)
    · rw [if_pos hcmp]
      obtain ⟨hkk, hm⟩ := hcmp
      have hkk' : k = k' := by omega
      subst hkk'
      simp only [memcmp_eq, Int.toNat_ofNat, hload, hload', beq_iff_eq] at hm
      refine ⟨_, rfl, Or.inr ⟨_, k, rfl, ?_⟩⟩
      exact
        { n_pos := by omega
          n_le := h2
          n_le_input := h3
          short_eof := h7
          input_eq := rfl
          in_script_eq := ⟨j, rfl⟩
          out_script_eq := ⟨j', rfl⟩
          out_pos_eq := rfl
          len_eq := rfl
          error_eq := rfl
          total_eq := rfl
          bytes_omitted_eq := rfl
          kind := Or.inl ⟨rfl, rfl, hm.symm, rfl, rfl, rfl, rfl, rfl⟩ }
    · rw [if_neg hcmp]
      have hne : k = min BLOCK_SIZE s.len.toNat → k ≤ s.world.out.length - s.world.out_pos →
          (s.world.out.drop s.world.out_pos).take k ≠ s.world.input.take k := by
        intro hk hko heq
        have hkk : k' = k := by
          by_contra hne
          have := g7 (by omega)
          omega
        subst hkk
        apply hcmp
        refine ⟨rfl, ?_⟩
        simp only [memcmp_eq, Int.toNat_ofNat, hload, hload', beq_iff_eq]
        exact heq.symm
      obtain ⟨rl, el, pl, hl, hpl, hlf⟩ := sys_lseek_back
        { s.world with input := s.world.input.drop k,
                       in_script := s.world.in_script.drop j, errno := s.world.errno,
                       out_script := s.world.out_script.drop j' } k'
      simp only at hl hlf
      simp only [hl]
      by_cases hrl : rl = -1
      · rw [if_pos hrl]
        refine ⟨_, rfl, Or.inl ⟨_, rfl, rfl, rfl, ?_,
          Or.inr (Or.inl (not_no_fail_of_drop (hlf hrl))), [Event.lseek (-(k' : Int))],
          by simp, rfl⟩⟩
        simp
      rw [if_neg hrl]
      have hpl' := hpl hrl
      simp only at hpl'
      subst hpl'
      obtain ⟨res, hres, hcase⟩ := shovel_write_spec fsync_interval
        { s with world := { s.world with input := s.world.input.drop k,
                                         in_script := s.world.in_script.drop j,
                                         out_script := (s.world.out_script.drop j').tail,
                                         errno := el,
                                         trace := s.world.trace ++ [Event.lseek (-(k' : Int))] },
                 buffer := s.buffer.store 0 (s.world.input.take k),
                 out_fd_buffer :=
                   s.out_fd_buffer.store 0 ((s.world.out.drop s.world.out_pos).take k') }
        k (by omega)
      refine ⟨res, hres, ?_⟩
      rcases hcase with ⟨r, hr, h8, h9, h10, h11, tf, htf, htrf⟩ | ⟨s1, hs1, hw⟩
      · refine Or.inl ⟨r, hr, h8, h9, ?_, Or.inr (Or.inl ?_),
          Event.lseek (-(k' : Int)) :: tf, ?_, ?_⟩
        · rw [h10]; simp
        · simp only [List.tail_drop] at h11
          exact not_no_fail_of_drop h11
        · intro ev hev hfs
          rcases List.mem_cons.mp hev with h | h
          · rw [h] at hfs; cases hfs
          · obtain ⟨c, hc⟩ := htf ev h
            rw [hc] at hfs; cases hfs
        · rw [htrf]; simp
      · refine Or.inr ⟨s1, k, hs1, ?_⟩
        obtain ⟨tw, htw, htr⟩ := hw.trace_eq
        obtain ⟨jw, hjw⟩ := hw.out_script_eq
        exact
          { n_pos := by omega
            n_le := h2
            n_le_input := h3
            short_eof := h7
            input_eq := hw.input_eq
            in_script_eq := ⟨j, hw.in_script_eq⟩
            out_script_eq := ⟨j' + 1 + jw, by
              rw [hjw]; simp only [List.tail_drop, List.drop_drop]⟩
            out_pos_eq := hw.out_pos_eq
            len_eq := hw.len_eq
            error_eq := hw.error_eq
            total_eq := by rw [hw.stats_eq]
            bytes_omitted_eq := by rw [hw.stats_eq]
            kind := Or.inr ⟨by rw [hw.out_eq]; simp only [hload], fun _ => hne,
              by rw [hw.stats_eq], by rw [hw.stats_eq], by rw [hw.stats_eq], hw.n_unsynced_eq,
              [Event.lseek (-(k' : Int))], tw, by simp, htw, by simpa using htr⟩ }

/-! ## The loop of `shovel_data` -/

theorem shovel_inv_step {inp : List Byte} {len0 : Nat} {s s1 : ShovelState} {c n : Nat}
    {wo : Bool} {fi : Nat} (hinv : ShovelInv inp len0 s c) (hstep : IterStep wo fi s s1 n) :
    ShovelInv inp len0 s1 (c + n) := by
  have hn := hstep.n_le
  have hni := hstep.n_le_input
  have hlen := hinv.len_eq
  rw [hinv.input_eq, List.length_drop] at hni
  have hc := hinv.c_le_input
  have hcl := hinv.c_le
  exact
    { c_le := by omega
      len_eq := by rw [hstep.len_eq, hlen]; push_cast; omega
      c_le_input := by omega
      input_eq := by rw [hstep.input_eq, hinv.input_eq, List.drop_drop, Nat.add_comm] }

theorem out_inv_step {inp out0 : List Byte} {len0 : Nat} {s s1 : ShovelState} {c n : Nat}
    {wo : Bool} {fi : Nat} (hinv : ShovelInv inp len0 s c) (hout : OutInv inp out0 s c)
    (hstep : IterStep wo fi s s1 n) : OutInv inp out0 s1 (c + n) := by
  have hni := hstep.n_le_input
  rw [hinv.input_eq, List.length_drop] at hni
  have hc := hinv.c_le_input
  have htake : inp.take (c + n) = inp.take c ++ (inp.drop c).take n := List.take_add _ _ _
  have hlc : (inp.take c).length = c := by rw [List.length_take]; omega
  refine
    { out_eq := ?_
      out_pos_eq := by rw [hstep.out_pos_eq, hout.out_pos_eq] }
  rcases hstep.kind with ⟨_, ho, heq, _⟩ | ⟨ho, _⟩
  · rw [ho, hout.out_eq, htake]
    rw [hout.out_eq, hout.out_pos_eq, hinv.input_eq] at heq
    have hd : List.drop c (inp.take c ++ out0.drop c) = out0.drop c := by
      rw [List.drop_append_eq_append_drop, hlc]; simp
    rw [hd] at heq
    rw [← heq, List.append_assoc]
    congr 1
    have : out0.drop (c + n) = (out0.drop c).drop n := by rw [List.drop_drop, Nat.add_comm]
    rw [this, List.take_append_drop]
  · rw [ho, hout.out_eq, hout.out_pos_eq, hinv.input_eq, htake]
    have := file_write_at (inp.take c) ((inp.drop c).take n) (out0.drop c)
    rw [hlc] at this
    rw [this, List.drop_drop, List.length_take, List.length_drop, Nat.min_eq_left hni]

theorem stats_inv_step {inp : List Byte} {len0 : Nat} {s s1 : ShovelState} {c n : Nat}
    {wo : Bool} {fi : Nat} (hlen0 : len0 < 2 ^ 63) (hpos : 0 < s.len)
    (hinv : ShovelInv inp len0 s c) (hst : StatsInv len0 s c)
    (hstep : IterStep wo fi s s1 n) : StatsInv len0 s1 (c + n) := by
  have hB : BLOCK_SIZE = 1048576 := by norm_num [BLOCK_SIZE]
  have hn := hstep.n_le
  have hn0 := hstep.n_pos
  have hni := hstep.n_le_input
  have hlen := hinv.len_eq
  have hcl := hinv.c_le
  have hal : c % BLOCK_SIZE = 0 := by
    rcases hst.aligned with h | h | h
    · exact h
    · omega
    · rw [h] at hni; simp at hni; omega
  have hbl := hst.blocks_eq
  rw [hB] at hn hal hbl
  refine
    { total_eq := by
        rw [hstep.total_eq, hst.total_eq]
        exact to_uintmax_add (by omega)
      blocks_eq := ?_
      aligned := ?_
      bytes_omitted_eq := by rw [hstep.bytes_omitted_eq, hst.bytes_omitted_eq] }
  · rw [hB]
    rcases hstep.kind with ⟨_, _, _, _, _, h1, h2, _⟩ | ⟨_, _, h1, h2, _⟩
    · rw [h1, h2, Nat.mod_eq_of_lt (by omega)]; omega
    · rw [h1, h2, Nat.mod_eq_of_lt (by omega)]; omega
  · rw [hB]
    by_cases hfull : n < min 1048576 s.len.toNat
    · right; right
      rw [hstep.input_eq]
      exact List.drop_eq_nil_of_le (le_of_eq (hstep.short_eof hfull))
    · omega

theorem shovel_loop_spec (wo : Bool) (fi : Nat) (inp out0 : List Byte) (len0 : Nat)
    (hlen0 : len0 < 2 ^ 63) :
    ∀ (fuel : Nat) (s : ShovelState) (c : Nat), ShovelInv inp len0 s c → len0 - c < fuel →
    ∃ r, shovel_loop wo fi fuel s = some r ∧
      (r.ok = true → len0 ≤ inp.length ∧ r.world.input = inp.drop len0) ∧
      (OutInv inp out0 s c → r.ok = true →
        r.world.out = inp.take len0 ++ out0.drop len0 ∧ r.world.out_pos = len0) ∧
      (StatsInv len0 s c →
        r.stats.total_bytes + r.world.input.length ≤ inp.length ∧
        r.stats.bytes_omitted = 0 ∧
        (r.ok = true → r.stats.total_bytes = len0 ∧
          r.stats.blocks_written + r.stats.blocks_omitted =
            (len0 + BLOCK_SIZE - 1) / BLOCK_SIZE)) := by
  intro fuel
  induction fuel with
  | zero => intro s c _ h; omega
  | succ fuel ih =>
    intro s c hinv hfuel
    have hlen := hinv.len_eq
    have hcl := hinv.c_le
    have hci := hinv.c_le_input
    by_cases hpos : 0 < s.len
    · obtain ⟨res, hres, hcase⟩ := shovel_iter_spec wo fi s hpos (by omega)
      rcases hcase with ⟨r, rfl, hok, hstats, hin, _⟩ | ⟨s1, n, rfl, hstep⟩
      · refine ⟨r, ?_, ?_, ?_, ?_⟩
        · simp [shovel_loop, hpos, hres]
        · intro h; rw [hok] at h; cases h
        · intro _ h; rw [hok] at h; cases h
        · intro hst
          rw [hinv.input_eq, List.length_drop] at hin
          refine ⟨?_, ?_, ?_⟩
          · rw [hstats, hst.total_eq]; omega
          · rw [hstats, hst.bytes_omitted_eq]
          · intro h; rw [hok] at h; cases h
      · have hn0 := hstep.n_pos
        obtain ⟨r, hr, h1, h2, h3⟩ := ih s1 (c + n) (shovel_inv_step hinv hstep) (by omega)
        refine ⟨r, ?_, h1, fun ho => h2 (out_inv_step hinv ho hstep),
          fun hst => h3 (stats_inv_step hlen0 hpos hinv hst hstep)⟩
        simp [shovel_loop, hpos, hres, hr]
    · have hc : c = len0 := by omega
      subst hc
      have hfin : ∃ r, shovel_loop wo fi (fuel + 1) s = some r ∧ r.ok = true ∧
          r.stats = s.stats ∧ r.world.input = s.world.input ∧ r.world.out = s.world.out ∧
          r.world.out_pos = s.world.out_pos := by
        obtain ⟨e, he⟩ := sys_fsync_world s.world
        by_cases hf : fi ≠ 0 ∧ s.n_unsynced ≥ fi
        · refine ⟨⟨true, s.stats, s.error, (sys_fsync s.world).2⟩, ?_, rfl, rfl, ?_, ?_, ?_⟩
          · simp only [shovel_loop, if_neg hpos, if_pos hf]
          · simp only [he]
          · simp only [he]
          · simp only [he]
        · refine ⟨⟨true, s.stats, s.error, s.world⟩, ?_, rfl, rfl, rfl, rfl, rfl⟩
          simp only [shovel_loop, if_neg hpos, if_neg hf]
      obtain ⟨r, hr, hok, hstats, hin, hout, hp⟩ := hfin
      refine ⟨r, hr, fun _ => ⟨hci, ?_⟩, fun ho _ => ⟨?_, ?_⟩,
        fun hst => ⟨?_, ?_, fun _ => ⟨?_, ?_⟩⟩⟩
      · rw [hin, hinv.input_eq]
      · rw [hout, ho.out_eq]
      · rw [hp, ho.out_pos_eq]
      · rw [hstats, hin, hst.total_eq, hinv.input_eq, List.length_drop]; omega
      · rw [hstats, hst.bytes_omitted_eq]
      · rw [hstats, hst.total_eq]
      · rw [hstats, hst.blocks_eq]

/-- The fuel that `shovel_data` gives its loop is enough, and the run has the
properties that the statements below use. -/
theorem shovel_data_spec (w : World) (len : Nat) (hlen : len < 2 ^ 63) (wo : Bool) (fi : Nat)
    (stats : Stats) (error : Nat) (buffer out_fd_buffer : Buffer) :
    ∃ r, shovel_data w (len : Int) wo fi stats error buffer out_fd_buffer = some r ∧
      (r.ok = true → len ≤ w.input.length ∧ r.world.input = w.input.drop len) ∧
      (w.out_pos = 0 → r.ok = true →
        r.world.out = w.input.take len ++ w.out.drop len ∧ r.world.out_pos = len) ∧
      (stats = Stats.zero →
        r.stats.total_bytes + r.world.input.length ≤ w.input.length ∧
        r.stats.bytes_omitted = 0 ∧
        (r.ok = true → r.stats.total_bytes = len ∧
          r.stats.blocks_written + r.stats.blocks_omitted =
            (len + BLOCK_SIZE - 1) / BLOCK_SIZE)) := by
  have hinv : ShovelInv w.input len
      { world := w, buffer := buffer, out_fd_buffer := out_fd_buffer, len := (len : Int),
        n_unsynced := 0, stats := stats, error := error } 0 :=
    { c_le := by omega
      len_eq := by simp
      c_le_input := by omega
      input_eq := by simp }
  obtain ⟨r, hr, h1, h2, h3⟩ := shovel_loop_spec wo fi w.input w.out len hlen
    ((len : Int).toNat + 1) _ 0 hinv (by simp)
  refine ⟨r, hr, h1, fun hp => h2 ?_, fun hz => h3 ?_⟩
  · exact { out_eq := by simp, out_pos_eq := hp }
  · subst hz
    exact
      { total_eq := rfl
        blocks_eq := by simp [Stats.zero, BLOCK_SIZE]
        aligned := Or.inl (by simp)
        bytes_omitted_eq := rfl }

/-- The function `shovel_data` returns for every length an `off_t` can hold: the fuel of the model
never runs out. -/
theorem shovel_data_total (w : World) (len : Int) (hlen : len < 2 ^ 63) (wo : Bool) (fi : Nat)
    (stats : Stats) (error : Nat) (buffer out_fd_buffer : Buffer) :
    ∃ r, shovel_data w len wo fi stats error buffer out_fd_buffer = some r := by
  by_cases h : 0 ≤ len
  · obtain ⟨n, rfl⟩ := Int.eq_ofNat_of_zero_le h
    obtain ⟨r, hr, _⟩ := shovel_data_spec w n (by exact_mod_cast hlen) wo fi stats error
      buffer out_fd_buffer
    exact ⟨r, hr⟩
  · have h0 : ¬ (0 < len) := by omega
    have h1 : len.toNat = 0 := by omega
    unfold shovel_data
    rw [h1]
    simp only [shovel_loop, if_neg h0]
    split <;> exact ⟨_, rfl⟩

/-! ## The copy engine: what a run of `shovel_data` guarantees -/

/-- A run of `shovel_data` over an output at position 0 that returns true has copied
`len` bytes. -/
theorem shovel_data_copies (w : World) (len : Nat) (write_optimized : Bool)
    (fsync_interval : Nat) (stats : Stats) (error : Nat) (buffer out_fd_buffer : Buffer)
    (r : ShovelResult) (hmax : len < 2 ^ 63) (hpos : w.out_pos = 0)
    (hrun : shovel_data w (len : Int) write_optimized fsync_interval stats error buffer
      out_fd_buffer = some r)
    (hok : r.ok = true) :
    len ≤ w.input.length ∧ r.world.input = w.input.drop len ∧
      r.world.out.take len = w.input.take len ∧ r.world.out.drop len = w.out.drop len ∧
      r.world.out_pos = len := by
  obtain ⟨r', hr', h1, h2, _⟩ := shovel_data_spec w len hmax write_optimized fsync_interval
    stats error buffer out_fd_buffer
  rw [hrun] at hr'
  cases hr'
  obtain ⟨h3, h4⟩ := h1 hok
  obtain ⟨h5, h6⟩ := h2 hpos hok
  have hl : (w.input.take len).length = len := by rw [List.length_take]; omega
  refine ⟨h3, h4, ?_, ?_, h6⟩
  · rw [h5, List.take_left' hl]
  · rw [h5, List.drop_left' hl]

/-- C1: if `shovel_data`, started on an output at position 0, returns true, then exactly
`len` bytes were consumed from the input, the first `len` bytes of the output are those
bytes, the output from offset `len` on is unchanged, and the output position is `len`.
This holds for both values of `write_optimized`, every `fsync_interval`, every initial
output content, every behaviour of the system calls and every `len` that an `off_t`
holds (`len = 0` included). -/
theorem C1_shovel_data_copies_len_bytes (w : World) (len : Nat) (write_optimized : Bool)
    (fsync_interval : Nat) (stats : Stats) (error : Nat) (buffer out_fd_buffer : Buffer)
    (r : ShovelResult) (hmax : len < 2 ^ 63) (hpos : w.out_pos = 0)
    (hrun : shovel_data w (len : Int) write_optimized fsync_interval stats error buffer
      out_fd_buffer = some r)
    (hok : r.ok = true) :
    len ≤ w.input.length ∧ r.world.input = w.input.drop len ∧
      r.world.out.take len = w.input.take len ∧ r.world.out.drop len = w.out.drop len ∧
      r.world.out_pos = len :=
  shovel_data_copies w len write_optimized fsync_interval stats error buffer out_fd_buffer r
    hmax hpos hrun hok

/-- Witness for C1: the copy of 3 bytes, read one byte at first, over an output of 4
bytes, write-optimized. -/
theorem C1_witness :
    (3 < 2 ^ 63 ∧ short_read_world.out_pos = 0 ∧
      shovel_data short_read_world ((3 : Nat) : Int) true 0 Stats.zero 0 zero_buffer zero_buffer =
        some short_read_result ∧
      short_read_result.ok = true) ∧
    (3 ≤ short_read_world.input.length ∧
      short_read_result.world.input = short_read_world.input.drop 3 ∧
      short_read_result.world.out.take 3 = short_read_world.input.take 3 ∧
      short_read_result.world.out.drop 3 = short_read_world.out.drop 3 ∧
      short_read_result.world.out_pos = 3) :=
  ⟨⟨by decide, rfl, by decide, rfl⟩,
    C1_shovel_data_copies_len_bytes short_read_world 3 true 0 Stats.zero 0 zero_buffer
      zero_buffer short_read_result (by decide) rfl (by decide) rfl⟩

/-- C2: the run of `shovel_data` on an input and an output that both hold the byte 7,
write-optimized and from zeroed statistics, returns true with `bytes_written = 0`,
`bytes_omitted = 0` and `total_bytes = 1`: the omitted block is counted in
`blocks_omitted` but its bytes are never added to `bytes_omitted`, so
`bytes_written + bytes_omitted` is not `total_bytes`. -/
theorem C2_bytes_omitted_is_never_counted :
    ∃ r, shovel_data matching_world 1 true 0 Stats.zero 0 zero_buffer zero_buffer = some r ∧
      r.ok = true ∧ r.stats.blocks_omitted = 1 ∧ r.stats.bytes_written = 0 ∧
      r.stats.bytes_omitted = 0 ∧ r.stats.total_bytes = 1 ∧
      r.stats.bytes_written + r.stats.bytes_omitted ≠ r.stats.total_bytes :=
  ⟨⟨true, ⟨0, 1, 0, 0, 1⟩, 0, { matching_world with input := [], out_pos := 1 }⟩,
    by decide, rfl, rfl, rfl, rfl, rfl, by decide⟩

/-- C3: when the input holds fewer than `len` bytes, `shovel_data` returns, it returns
false, and `stats.total_bytes` is at most the number of bytes that were read from the
input. -/
theorem C3_short_input_fails (w : World) (len : Nat) (write_optimized : Bool)
    (fsync_interval : Nat) (error : Nat) (buffer out_fd_buffer : Buffer)
    (hmax : len < 2 ^ 63) (hshort : w.input.length < len) :
    ∃ r, shovel_data w (len : Int) write_optimized fsync_interval Stats.zero error buffer
        out_fd_buffer = some r ∧
      r.ok = false ∧ r.stats.total_bytes ≤ w.input.length - r.world.input.length := by
  obtain ⟨r, hr, h1, _, h3⟩ := shovel_data_spec w len hmax write_optimized fsync_interval
    Stats.zero error buffer out_fd_buffer
  obtain ⟨h4, _, _⟩ := h3 rfl
  refine ⟨r, hr, ?_, by omega⟩
  cases hok : r.ok with
  | false => rfl
  | true => have := (h1 hok).1; omega

/-- Witness for C3: a declared length of 3 over an input of 2 bytes. -/
theorem C3_witness :
    (3 < 2 ^ 63 ∧ truncated_world.input.length < 3) ∧
    ∃ r, shovel_data truncated_world ((3 : Nat) : Int) true 0 Stats.zero 0 zero_buffer
        zero_buffer = some r ∧
      r.ok = false ∧
      r.stats.total_bytes ≤ truncated_world.input.length - r.world.input.length :=
  ⟨⟨by decide, by decide⟩,
    C3_short_input_fails truncated_world 3 true 0 0 zero_buffer zero_buffer (by decide)
      (by decide)⟩

/-- C4: a `read` interrupted by a signal (return value -1, `errno == EINTR`) is not
re-issued: on an input holding 1, 2, 3, 4 whose first call is interrupted, `buf_io`
returns -1 and consumes nothing, and `shovel_data` returns false with `*error = EINTR`;
without the interruption `buf_io` returns 4 and `shovel_data` returns true. -/
theorem C4_interrupted_read_is_not_retried :
    (buf_io sys_read (four_byte_world true) Fd.in_fd zero_buffer 4).map
        (fun r => (r.1, r.2.2.input)) = some (-1, [1, 2, 3, 4]) ∧
    (buf_io sys_read (four_byte_world false) Fd.in_fd zero_buffer 4).map
        (fun r => (r.1, r.2.2.input)) = some (4, []) ∧
    (shovel_data (four_byte_world true) 4 false 0 Stats.zero 0 zero_buffer zero_buffer).map
        (fun r => (r.ok, r.error)) = some (false, EINTR) ∧
    (shovel_data (four_byte_world false) 4 false 0 Stats.zero 0 zero_buffer zero_buffer).map
        (fun r => (r.ok, r.error)) = some (true, 0) := by
  refine ⟨by decide, by decide, by decide, by decide⟩

/-- C6: after a run of `shovel_data` that starts from zeroed statistics and returns true,
`blocks_written + blocks_omitted` is `total_bytes / BLOCK_SIZE` rounded up, with
`BLOCK_SIZE` = 1 MiB and `total_bytes = len`; this holds whatever number of bytes the
single `read` calls return. -/
theorem C6_block_count_is_ceil (w : World) (len : Nat) (write_optimized : Bool)
    (fsync_interval : Nat) (error : Nat) (buffer out_fd_buffer : Buffer) (r : ShovelResult)
    (hmax : len < 2 ^ 63)
    (hrun : shovel_data w (len : Int) write_optimized fsync_interval Stats.zero error buffer
      out_fd_buffer = some r)
    (hok : r.ok = true) :
    BLOCK_SIZE = 1024 * 1024 ∧ r.stats.total_bytes = len ∧
      r.stats.blocks_written + r.stats.blocks_omitted =
        (r.stats.total_bytes + BLOCK_SIZE - 1) / BLOCK_SIZE := by
  obtain ⟨r', hr', _, _, h3⟩ := shovel_data_spec w len hmax write_optimized fsync_interval
    Stats.zero error buffer out_fd_buffer
  rw [hrun] at hr'
  cases hr'
  obtain ⟨_, _, h4⟩ := h3 rfl
  obtain ⟨h5, h6⟩ := h4 hok
  exact ⟨rfl, h5, by rw [h5, h6]⟩

/-- Witness for C6: 3 bytes read one at a time, written with a short first write. -/
theorem C6_witness :
    (3 < 2 ^ 63 ∧
      shovel_data trickle_world ((3 : Nat) : Int) false 2 Stats.zero 0 zero_buffer zero_buffer =
        some trickle_result ∧
      trickle_result.ok = true) ∧
    (BLOCK_SIZE = 1024 * 1024 ∧ trickle_result.stats.total_bytes = 3 ∧
      trickle_result.stats.blocks_written + trickle_result.stats.blocks_omitted =
        (trickle_result.stats.total_bytes + BLOCK_SIZE - 1) / BLOCK_SIZE) :=
  ⟨⟨by decide, by decide, rfl⟩,
    C6_block_count_is_ceil trickle_world 3 false 2 0 zero_buffer zero_buffer trickle_result
      (by decide) (by decide) rfl⟩

/-! ## A second, write-optimized run over an output that already holds the input -/

theorem take_drop_eq_of_take_eq {l1 l2 : List Byte} {m c n : Nat}
    (h : l1.take m = l2.take m) (hcn : c + n ≤ m) :
    (l1.drop c).take n = (l2.drop c).take n := by
  have h1 : ∀ l : List Byte, (l.drop c).take n = ((l.take m).drop c).take n := by
    intro l
    rw [List.drop_take, List.take_take, Nat.min_eq_left (by omega)]
  rw [h1 l1, h1 l2, h]

theorem omit_inv_step {inp out : List Byte} {trace : List Event} {len0 : Nat}
    {s s1 : ShovelState} {c n : Nat} {fi : Nat}
    (hlen : len0 ≤ inp.length) (heq : out.take len0 = inp.take len0)
    (hinv : ShovelInv inp len0 s c) (hom : OmitInv out trace s c)
    (hstep : IterStep true fi s s1 n) : OmitInv out trace s1 (c + n) := by
  have hn := hstep.n_le
  have hni := hstep.n_le_input
  have hse := hstep.short_eof
  have hlen' := hinv.len_eq
  have hcl := hinv.c_le
  rw [hinv.input_eq, List.length_drop] at hni hse
  have hol : len0 ≤ out.length := by
    have := congrArg List.length heq
    simp only [List.length_take] at this
    omega
  obtain ⟨j1, hj1⟩ := hstep.in_script_eq
  obtain ⟨j2, hj2⟩ := hstep.out_script_eq
  rcases hstep.kind with ⟨_, h1, _, h2, h3, _, h4, _⟩ | ⟨_, hne, _⟩
  · exact
      { no_fail_in := by rw [hj1]; exact no_fail_drop hom.no_fail_in _
        no_fail_out := by rw [hj2]; exact no_fail_drop hom.no_fail_out _
        out_eq := by rw [h1, hom.out_eq]
        out_pos_eq := by rw [hstep.out_pos_eq, hom.out_pos_eq]
        trace_eq := by rw [h2, hom.trace_eq]
        n_unsynced_eq := by rw [h3, hom.n_unsynced_eq]
        blocks_written_eq := by rw [h4, hom.blocks_written_eq] }
  · exfalso
    have hfull : n = min BLOCK_SIZE s.len.toNat := by
      by_contra hne'
      have := hse (by omega)
      omega
    refine hne rfl hfull ?_ ?_
    · rw [hom.out_eq, hom.out_pos_eq]; omega
    · rw [hom.out_eq, hom.out_pos_eq, hinv.input_eq]
      exact take_drop_eq_of_take_eq heq (by omega)

theorem shovel_loop_omits (fi : Nat) (inp out : List Byte) (trace : List Event) (len0 : Nat)
    (hlen0 : len0 < 2 ^ 63) (hlen : len0 ≤ inp.length) (heq : out.take len0 = inp.take len0) :
    ∀ (fuel : Nat) (s : ShovelState) (c : Nat), ShovelInv inp len0 s c →
      OmitInv out trace s c → len0 - c < fuel →
    ∃ r, shovel_loop true fi fuel s = some r ∧ r.ok = true ∧ r.world.out = out ∧
      r.world.trace = trace ∧ r.stats.blocks_written = 0 := by
  intro fuel
  induction fuel with
  | zero => intro s c _ _ h; omega
  | succ fuel ih =>
    intro s c hinv hom hfuel
    have hlen' := hinv.len_eq
    have hcl := hinv.c_le
    by_cases hpos : 0 < s.len
    · obtain ⟨res, hres, hcase⟩ := shovel_iter_spec true fi s hpos (by omega)
      rcases hcase with ⟨r, rfl, _, _, _, hwhy, _⟩ | ⟨s1, n, rfl, hstep⟩
      · exfalso
        rcases hwhy with h | h | h
        · exact h hom.no_fail_in
        · exact h hom.no_fail_out
        · have := congrArg List.length h
          rw [hinv.input_eq, List.length_drop] at this
          simp at this
          omega
      · have hn0 := hstep.n_pos
        obtain ⟨r, hr, h1⟩ := ih s1 (c + n) (shovel_inv_step hinv hstep)
          (omit_inv_step hlen heq hinv hom hstep) (by omega)
        refine ⟨r, ?_, h1⟩
        simp [shovel_loop, hpos, hres, hr]
    · have hf : ¬ (fi ≠ 0 ∧ s.n_unsynced ≥ fi) := by
        rw [hom.n_unsynced_eq]; omega
      refine ⟨⟨true, s.stats, s.error, s.world⟩, ?_, rfl, hom.out_eq, hom.trace_eq,
        hom.blocks_written_eq⟩
      simp only [shovel_loop, if_neg hpos, if_neg hf]

/-- A write-optimized run over an output whose first `len` bytes are the first `len`
bytes of the input omits every block, when no call fails. -/
theorem shovel_data_omits (w : World) (len : Nat) (fsync_interval : Nat) (error : Nat)
    (buffer out_fd_buffer : Buffer) (hmax : len < 2 ^ 63) (hlen : len ≤ w.input.length)
    (heq : w.out.take len = w.input.take len) (hpos : w.out_pos = 0)
    (hnf_in : no_fail w.in_script) (hnf_out : no_fail w.out_script) :
    ∃ r, shovel_data w (len : Int) true fsync_interval Stats.zero error buffer
        out_fd_buffer = some r ∧
      r.ok = true ∧ r.stats.blocks_written = 0 ∧
      r.stats.blocks_omitted = (len + BLOCK_SIZE - 1) / BLOCK_SIZE ∧
      r.world.trace = w.trace ∧ r.world.out = w.out := by
  have hinv : ShovelInv w.input len
      { world := w, buffer := buffer, out_fd_buffer := out_fd_buffer, len := (len : Int),
        n_unsynced := 0, stats := Stats.zero, error := error } 0 :=
    { c_le := by omega
      len_eq := by simp
      c_le_input := by omega
      input_eq := by simp }
  have hom : OmitInv w.out w.trace
      { world := w, buffer := buffer, out_fd_buffer := out_fd_buffer, len := (len : Int),
        n_unsynced := 0, stats := Stats.zero, error := error } 0 :=
    { no_fail_in := hnf_in
      no_fail_out := hnf_out
      out_eq := rfl
      out_pos_eq := hpos
      trace_eq := rfl
      n_unsynced_eq := rfl
      blocks_written_eq := rfl }
  obtain ⟨r, hr, g1, g2, g3, g4⟩ := shovel_loop_omits fsync_interval w.input w.out w.trace
    len hmax hlen heq ((len : Int).toNat + 1) _ 0 hinv hom (by simp)
  obtain ⟨r', hr', _, _, k3⟩ := shovel_data_spec w len hmax true fsync_interval
    Stats.zero error buffer out_fd_buffer
  have hsame : r' = r := by
    unfold shovel_data at hr'
    rw [hr] at hr'
    exact (Option.some.inj hr').symm
  subst hsame
  obtain ⟨_, _, k4⟩ := k3 rfl
  obtain ⟨_, k5⟩ := k4 g1
  refine ⟨r', hr', g1, g4, ?_, g3, g2⟩
  rw [g4] at k5; simpa using k5

/-- Scenario B of the specification: a 10 MiB input and an output that already holds
the same 10 MiB, write optimization on, no failing call: no block is written and 10
blocks are omitted. -/
theorem scenario_identical_10_MiB (data : List Byte) (hdata : data.length = 10 * BLOCK_SIZE)
    (in_script out_script : List Outcome) (hnf_in : no_fail in_script)
    (hnf_out : no_fail out_script) (fsync_interval : Nat) (buffer out_fd_buffer : Buffer) :
    ∃ r, shovel_data ⟨data, in_script, data, 0, out_script, 0, []⟩ ((10 * BLOCK_SIZE : Nat) : Int)
        true fsync_interval Stats.zero 0 buffer out_fd_buffer = some r ∧
      r.ok = true ∧ r.stats.blocks_written = 0 ∧ r.stats.blocks_omitted = 10 := by
  obtain ⟨r, hr, h1, h2, h3, _⟩ := shovel_data_omits ⟨data, in_script, data, 0, out_script, 0, []⟩
    (10 * BLOCK_SIZE) fsync_interval 0 buffer out_fd_buffer (by norm_num [BLOCK_SIZE])
    (le_of_eq hdata.symm) rfl rfl hnf_in hnf_out
  refine ⟨r, hr, h1, h2, ?_⟩
  rw [h3]; norm_num [BLOCK_SIZE]

/-- C5: if a first run of `shovel_data` over an output at position 0 returns true, a
second, write-optimized run over the same input and the output that the first run
left, both repositioned at 0 and with zeroed statistics, returns true with
`blocks_written = 0` and `blocks_omitted` equal to `len / BLOCK_SIZE` rounded up; it
issues no call that changes the output (no `write`, `lseek` or `fsync`: the trace is
what it was) and leaves the content as it is. The calls of the second run may be short
but do not fail; the declared length is any `len` for which the first run succeeded, the
length of the input included. -/
theorem C5_second_run_omits_every_block (w w2 : World) (len : Nat) (write_optimized : Bool)
    (fsync_interval fsync_interval2 : Nat) (stats : Stats) (error error2 : Nat)
    (buffer out_fd_buffer buffer2 out_fd_buffer2 : Buffer) (r : ShovelResult)
    (hmax : len < 2 ^ 63) (hpos : w.out_pos = 0)
    (hrun : shovel_data w (len : Int) write_optimized fsync_interval stats error buffer
      out_fd_buffer = some r)
    (hok : r.ok = true)
    (hin2 : w2.input = w.input) (hout2 : w2.out = r.world.out) (hpos2 : w2.out_pos = 0)
    (hnf_in : no_fail w2.in_script) (hnf_out : no_fail w2.out_script) :
    ∃ r2, shovel_data w2 (len : Int) true fsync_interval2 Stats.zero error2 buffer2
        out_fd_buffer2 = some r2 ∧
      r2.ok = true ∧ r2.stats.blocks_written = 0 ∧
      r2.stats.blocks_omitted = (len + BLOCK_SIZE - 1) / BLOCK_SIZE ∧
      (∀ c, Event.write c ∈ r2.world.trace → Event.write c ∈ w2.trace) ∧
      r2.world.trace = w2.trace ∧ r2.world.out = w2.out := by
  obtain ⟨h1, _, h3, _, _⟩ := shovel_data_copies w len write_optimized
    fsync_interval stats error buffer out_fd_buffer r hmax hpos hrun hok
  obtain ⟨r2, hr2, g1, g2, g3, g4, g5⟩ := shovel_data_omits w2 len fsync_interval2 error2
    buffer2 out_fd_buffer2 hmax (by rw [hin2]; exact h1) (by rw [hout2, hin2]; exact h3)
    hpos2 hnf_in hnf_out
  exact ⟨r2, hr2, g1, g2, g3, fun c hc => by rw [g4] at hc; exact hc, g4, g5⟩

/-- Witness for C5: the run of `short_read_world` followed by a second run over the
output it left. -/
theorem C5_witness :
    (3 < 2 ^ 63 ∧ short_read_world.out_pos = 0 ∧
      shovel_data short_read_world ((3 : Nat) : Int) true 0 Stats.zero 0 zero_buffer zero_buffer =
        some short_read_result ∧
      short_read_result.ok = true ∧
      second_run_world.input = short_read_world.input ∧
      second_run_world.out = short_read_result.world.out ∧ second_run_world.out_pos = 0 ∧
      no_fail second_run_world.in_script ∧ no_fail second_run_world.out_script) ∧
    ∃ r2, shovel_data second_run_world ((3 : Nat) : Int) true 2 Stats.zero 0 zero_buffer
        zero_buffer = some r2 ∧
      r2.ok = true ∧ r2.stats.blocks_written = 0 ∧
      r2.stats.blocks_omitted = (3 + BLOCK_SIZE - 1) / BLOCK_SIZE ∧
      (∀ c, Event.write c ∈ r2.world.trace → Event.write c ∈ second_run_world.trace) ∧
      r2.world.trace = second_run_world.trace ∧ r2.world.out = second_run_world.out :=
  ⟨⟨by decide, rfl, by decide, rfl, rfl, rfl, rfl, by decide, by decide⟩,
    C5_second_run_omits_every_block short_read_world second_run_world 3 true 0 2 Stats.zero 0 0
      zero_buffer zero_buffer zero_buffer zero_buffer short_read_result (by decide)
      rfl (by decide) rfl rfl rfl rfl (by decide) (by decide)⟩

/-! ## `main`: the zero-copy loop and the choice of the copy -/

theorem sys_sendfile_input (w : World) (count : Nat) :
    (sys_sendfile w count).1 = -1 ∨
      ∃ n : Nat, (sys_sendfile w count).1 = (n : Int) ∧ n ≤ count ∧
        (sys_sendfile w count).2.input.length + n = w.input.length := by
  rcases script_head_cases w.in_script with ⟨e, he⟩ | hok
  · left; simp [sys_sendfile, he]
  · right
    refine ⟨granted (script_head w.in_script) count w.input.length, ?_, granted_le_count _ _ _, ?_⟩
    · unfold sys_sendfile; simp only
    · have := granted_le_avail (script_head w.in_script) count w.input.length
      unfold sys_sendfile; simp only
      rw [List.length_drop]; omega

theorem sys_fsync_input (w : World) : (sys_fsync w).2.input = w.input := by
  obtain ⟨e, he⟩ := sys_fsync_world w
  rw [he]

/-- The zero-copy loop ends: every round that goes on has consumed input. -/
theorem zero_copy_loop_total (fsync_interval : Int) (chunk_size : Nat) :
    ∀ (fuel : Nat) (w : World) (len : Nat) (n_unsynced : Int) (stats : Stats),
      w.input.length < fuel →
      ∃ r, zero_copy_loop fsync_interval chunk_size fuel w len n_unsynced stats = some r := by
  intro fuel
  induction fuel with
  | zero => intro w _ _ _ h; omega
  | succ fuel ih =>
    intro w len n_unsynced stats hfuel
    rw [zero_copy_loop]
    simp only
    by_cases hret : (sys_sendfile w chunk_size).1 > 0
    · rw [if_pos hret]
      by_cases hlen : to_uintmax ((len : Int) - (sys_sendfile w chunk_size).1) > 0
      · rw [if_pos hlen]
        apply ih
        rcases sys_sendfile_input w chunk_size with h | ⟨n, h1, _, h3⟩
        · omega
        · have hn : 0 < n := by omega
          split
          · rw [sys_fsync_input]; omega
          · omega
      · rw [if_neg hlen]; exact ⟨_, rfl⟩
    · rw [if_neg hret]; exact ⟨_, rfl⟩

theorem to_off_t_lt (x : Nat) : to_off_t x < 2 ^ 63 := by
  unfold to_off_t
  split <;> omega

theorem main_copy_engine (e : Env) (is_ubi : Int) (write_optimized : Bool) (fsync_interval : Int)
    (len : Nat) (w : World) :
    ∃ r, main_copy e is_ubi write_optimized fsync_interval len w = some r ∧
      r.engine = some
        (if is_ubi = 1 ∨ write_optimized = true then
          Engine.shovel_data (to_off_t len) write_optimized (to_uintmax fsync_interval)
        else
          Engine.zero_copy len
            (if fsync_interval ≠ 0 then MIN_SIZE len fsync_interval else len)) := by
  unfold main_copy
  by_cases h : is_ubi = 1 ∨ write_optimized = true
  · simp only [if_pos h]
    obtain ⟨r, hr⟩ := shovel_data_total w (to_off_t len) (to_off_t_lt len) write_optimized
      (to_uintmax fsync_interval) Stats.zero 0 e.buffer e.out_fd_buffer
    rw [hr]
    exact ⟨_, rfl, rfl⟩
  · simp only [if_neg h]
    obtain ⟨r, hr⟩ := zero_copy_loop_total fsync_interval
      (if fsync_interval ≠ 0 then MIN_SIZE len fsync_interval else len)
      (w.input.length + 1) w len 0 Stats.zero (by omega)
    rw [hr]
    exact ⟨_, rfl, rfl⟩

/-- The function `main` returns: no fuel of the model runs out. -/
theorem main_total (o : Opts) (e : Env) (w : World) : ∃ r, main o e w = some r := by
  have key : ∀ (iu : Int) (wo : Bool) (fi : Int) (len : Nat) (w1 : World),
      ∃ r, main_copy e iu wo fi len w1 = some r := by
    intro iu wo fi len w1
    obtain ⟨r, hr, _⟩ := main_copy_engine e iu wo fi len w1
    exact ⟨r, hr⟩
  unfold main
  simp only
  repeat' split
  all_goals first | exact ⟨_, rfl⟩ | exact key _ _ _ _ _

/-- When the set-up of `main` succeeds, `main` runs the copy, and this lemma says which. -/
theorem main_engine (o : Opts) (e : Env) (w : World)
    (hin : e.in_open_ok = true) (hst : e.fstat_ok = true) (hubi : e.is_ubi ≠ -1)
    (hout : e.out_open_ok = true) (hioctl : e.is_ubi = 1 → e.ioctl_ok = true)
    (hlen : o.volume_size % 2 ^ 64 ≠ 0 ∨ e.st_size ≠ 0) :
    ∃ r, main o e w = some r ∧
      r.engine = some
        (if e.is_ubi = 1 ∨ (if e.is_ubi = 1 then false else o.write_optimized) = true then
          Engine.shovel_data
            (to_off_t (if o.volume_size % 2 ^ 64 ≠ 0 then o.volume_size % 2 ^ 64
              else to_uintmax e.st_size))
            (if e.is_ubi = 1 then false else o.write_optimized)
            (to_uintmax (if e.is_ubi = 1 then 0 else o.fsync_interval))
        else
          Engine.zero_copy
            (if o.volume_size % 2 ^ 64 ≠ 0 then o.volume_size % 2 ^ 64 else to_uintmax e.st_size)
            (if (if e.is_ubi = 1 then 0 else o.fsync_interval) ≠ 0 then
              MIN_SIZE
                ((if o.volume_size % 2 ^ 64 ≠ 0 then o.volume_size % 2 ^ 64
                  else to_uintmax e.st_size : Nat) : Int)
                (if e.is_ubi = 1 then 0 else o.fsync_interval)
            else
              (if o.volume_size % 2 ^ 64 ≠ 0 then o.volume_size % 2 ^ 64
                else to_uintmax e.st_size))) := by
  have hio : ¬ (e.is_ubi = 1 ∧
      (if e.is_ubi = 1 then sys_ioctl_volup w e.ioctl_ok (o.volume_size % 2 ^ 64) else (0, w)).1 = -1) := by
    rintro ⟨h1, h2⟩
    rw [if_pos h1] at h2
    simp [sys_ioctl_volup, hioctl h1] at h2
  unfold main
  simp only [hin, hst, hout, Bool.not_true, Bool.false_eq_true, if_false, if_neg hubi, if_neg hio]
  by_cases hv : o.volume_size % 2 ^ 64 ≠ 0
  · simp only [if_pos hv]
    exact main_copy_engine _ _ _ _ _ _
  · have hs : ¬ e.st_size = 0 := by
      rcases hlen with h | h
      · exact absurd h hv
      · exact h
    simp only [if_neg hv, if_neg hs]
    exact main_copy_engine _ _ _ _ _ _

/-- C7: when the set-up of `main` succeeds, `main` runs `shovel_data` iff write
optimization is still enabled after the UBI detection or the output is a UBI device,
and the zero-copy loop otherwise; and for a UBI device `shovel_data` gets
`write_optimized = false` and `fsync_interval = 0`, whatever `--write-everything` and
`--fsync-interval` were. -/
theorem C7_path_selection (o : Opts) (e : Env) (w : World)
    (hin : e.in_open_ok = true) (hst : e.fstat_ok = true) (hubi : e.is_ubi ≠ -1)
    (hout : e.out_open_ok = true) (hioctl : e.is_ubi = 1 → e.ioctl_ok = true)
    (hlen : o.volume_size % 2 ^ 64 ≠ 0 ∨ e.st_size ≠ 0) :
    ∃ r eng, main o e w = some r ∧ r.engine = some eng ∧
      ((∃ len wo fi, eng = Engine.shovel_data len wo fi) ↔
        ((if e.is_ubi = 1 then false else o.write_optimized) = true ∨ e.is_ubi = 1)) ∧
      ((∃ len chunk, eng = Engine.zero_copy len chunk) ↔
        ¬ ((if e.is_ubi = 1 then false else o.write_optimized) = true ∨ e.is_ubi = 1)) ∧
      (e.is_ubi = 1 → ∃ len, eng = Engine.shovel_data len false 0) := by
  obtain ⟨r, hr, heng⟩ := main_engine o e w hin hst hubi hout hioctl hlen
  refine ⟨r, _, hr, heng, ?_, ?_, ?_⟩
  · by_cases h1 : e.is_ubi = 1
    · simp [h1]
    · by_cases h2 : o.write_optimized = true <;> simp [h1, h2]
  · by_cases h1 : e.is_ubi = 1
    · simp [h1]
    · by_cases h2 : o.write_optimized = true <;> simp [h1, h2]
  · intro h1
    simp [h1, to_uintmax]

/-- Witness for C7: a UBI output with `--input-size 3` and `--fsync-interval 2`. -/
theorem C7_witness :
    ((good_env true 5).in_open_ok = true ∧ (good_env true 5).fstat_ok = true ∧
      (good_env true 5).is_ubi ≠ -1 ∧ (good_env true 5).out_open_ok = true ∧
      ((good_env true 5).is_ubi = 1 → (good_env true 5).ioctl_ok = true) ∧
      ((3 : Nat) % 2 ^ 64 ≠ 0 ∨ (good_env true 5).st_size ≠ 0)) ∧
    ∃ r eng, main ⟨3, true, 2⟩ (good_env true 5) (counting_world 5) = some r ∧
      r.engine = some eng ∧
      ((∃ len wo fi, eng = Engine.shovel_data len wo fi) ↔
        ((if (good_env true 5).is_ubi = 1 then false else true) = true ∨
          (good_env true 5).is_ubi = 1)) ∧
      ((∃ len chunk, eng = Engine.zero_copy len chunk) ↔
        ¬ ((if (good_env true 5).is_ubi = 1 then false else true) = true ∨
          (good_env true 5).is_ubi = 1)) ∧
      ((good_env true 5).is_ubi = 1 → ∃ len, eng = Engine.shovel_data len false 0) :=
  ⟨⟨rfl, rfl, by decide, rfl, fun _ => rfl, Or.inl (by decide)⟩,
    C7_path_selection ⟨3, true, 2⟩ (good_env true 5) (counting_world 5) rfl rfl (by decide) rfl
      (fun _ => rfl) (Or.inl (by decide))⟩

/-- C8: for a UBI output and no `--input-size` (`volume_size = 0`), with an input whose
`stat` size is 5, `main` issues `ioctl(UBI_IOCVOLUP)` once and before the write, but
with the size 0, and then copies with `len = 5`: the call is made before `len` is
taken from the `stat` size. With `--input-size 3` the size argument is 3, the length
that is copied. -/
theorem C8_volume_size_is_zero_without_input_size :
    (main ⟨0, true, BLOCK_SIZE⟩ (good_env true 5) (counting_world 5)).map
        (fun r => (r.exit_code, r.engine, r.world.trace)) =
      some (0, some (Engine.shovel_data 5 false 0), [Event.ioctl_volup 0, Event.write 5]) ∧
    (main ⟨3, true, BLOCK_SIZE⟩ (good_env true 5) (counting_world 5)).map
        (fun r => (r.exit_code, r.engine, r.world.trace)) =
      some (0, some (Engine.shovel_data 3 false 0), [Event.ioctl_volup 3, Event.write 3]) := by
  refine ⟨by decide, by decide⟩

/-- C9: on the zero-copy path (`--write-everything`, no UBI) with a declared length of 5
and an input of 2 bytes, the copy primitive returns 0 while 3 bytes are still to
transfer, and `main` exits with status 0 after 2 bytes: `success` is set by
`ret == 0`. The buffered path, on the same input and length, exits with
`EXIT_FAILURE`. -/
theorem C9_zero_copy_end_of_input_is_success :
    (main ⟨5, false, 0⟩ (good_env false 2) (counting_world 2)).map
        (fun r => (r.exit_code, r.engine, r.stats.total_bytes, r.world.trace)) =
      some (0, some (Engine.zero_copy 5 5), 2, [Event.sendfile 5, Event.sendfile 5]) ∧
    (zero_copy_loop 0 5 3 (counting_world 2) 5 0 Stats.zero).map (fun r => (r.ret, r.len)) =
      some (0, 3) ∧
    (main ⟨5, true, 0⟩ (good_env false 2) (counting_world 2)).map
        (fun r => (r.exit_code, r.engine, r.stats.total_bytes)) =
      some (EXIT_FAILURE, some (Engine.shovel_data 5 true 0), 2) := by
  refine ⟨by decide, by decide, by decide⟩

/-- C10: on the zero-copy path with a declared length of 3, `--fsync-interval 2` and an
input of 5 bytes, every request asks for `chunk_size = 2` bytes, computed once before
the loop: the second request asks for 2 bytes when 1 is left, the `size_t` length
wraps to `2^64 - 1` and then `2^64 - 2`, the loop goes on to the end of the input, and
`main` exits with status 0 and `total_bytes = 5`, more than the declared length. -/
theorem C10_chunk_size_is_not_recomputed :
    (main ⟨3, false, 2⟩ (good_env false 5) (counting_world 5)).map
        (fun r => (r.exit_code, r.engine, r.stats.total_bytes, r.world.out.length,
          r.world.trace)) =
      some (0, some (Engine.zero_copy 3 2), 5, 5,
        [Event.sendfile 2, Event.fsync, Event.sendfile 2, Event.fsync, Event.sendfile 2,
          Event.sendfile 2, Event.fsync]) ∧
    (zero_copy_loop 2 2 6 (counting_world 5) 3 0 Stats.zero).map
        (fun r => (r.ret, r.len, r.stats.total_bytes)) =
      some (0, 2 ^ 64 - 2, 5) := by
  refine ⟨by decide, by decide⟩

/-! ## The `fsync` calls of a run -/

theorem fsync_count_append (a b : List Event) :
    fsync_count (a ++ b) = fsync_count a + fsync_count b := by
  simp [fsync_count]

theorem fsync_count_eq_zero {t : List Event} (h : ∀ ev ∈ t, ev ≠ Event.fsync) :
    fsync_count t = 0 := by
  unfold fsync_count
  rw [List.count_eq_zero]
  intro hm
  exact h _ hm rfl

theorem fsync_count_writes {t : List Event} (h : ∀ ev ∈ t, ∃ c, ev = Event.write c) :
    fsync_count t = 0 :=
  fsync_count_eq_zero (fun ev hev hfs => by
    obtain ⟨c, hc⟩ := h ev hev
    rw [hc] at hfs; cases hfs)

theorem fsync_count_lseeks {t : List Event} (h : ∀ ev ∈ t, ∃ off, ev = Event.lseek off) :
    fsync_count t = 0 :=
  fsync_count_eq_zero (fun ev hev hfs => by
    obtain ⟨c, hc⟩ := h ev hev
    rw [hc] at hfs; cases hfs)

/-- What an iteration that does not fail does to the sync accumulator, to the count of
`fsync` calls and to `bytes_written`: nothing when the block is omitted; when the block
is written, one `fsync` and a reset to zero if the accumulator reaches the interval. -/
theorem iter_step_sync {wo : Bool} {fi : Nat} {s s1 : ShovelState} {n : Nat}
    (hstep : IterStep wo fi s s1 n) :
    (wo = true ∧ fsync_count s1.world.trace = fsync_count s.world.trace ∧
      s1.n_unsynced = s.n_unsynced ∧ s1.stats.bytes_written = s.stats.bytes_written) ∨
    (s1.stats.bytes_written = to_uintmax (s.stats.bytes_written + (n : Int)) ∧
      ((fi = 0 ∧ fsync_count s1.world.trace = fsync_count s.world.trace ∧
          s1.n_unsynced = s.n_unsynced) ∨
       (fi ≠ 0 ∧ to_uintmax (s.n_unsynced + (n : Int)) ≥ fi ∧
          fsync_count s1.world.trace = fsync_count s.world.trace + 1 ∧ s1.n_unsynced = 0) ∨
       (fi ≠ 0 ∧ to_uintmax (s.n_unsynced + (n : Int)) < fi ∧
          fsync_count s1.world.trace = fsync_count s.world.trace ∧
          s1.n_unsynced = to_uintmax (s.n_unsynced + (n : Int))))) := by
  rcases hstep.kind with ⟨h0, _, _, h1, h2, _, _, h3⟩ | ⟨_, _, _, _, h1, h2, tl, tw, htl, htw, h3⟩
  · exact Or.inl ⟨h0, by rw [h1], h2, h3⟩
  · refine Or.inr ⟨h1, ?_⟩
    have hc : fsync_count s1.world.trace = fsync_count s.world.trace +
        fsync_count (if fi ≠ 0 ∧ to_uintmax (s.n_unsynced + (n : Int)) ≥ fi
          then [Event.fsync] else []) := by
      rw [h3]
      simp only [fsync_count_append, fsync_count_lseeks htl, fsync_count_writes htw]
      omega
    by_cases hf : fi ≠ 0
    · by_cases hs : to_uintmax (s.n_unsynced + (n : Int)) ≥ fi
      · refine Or.inr (Or.inl ⟨hf, hs, ?_, ?_⟩)
        · rw [hc, if_pos ⟨hf, hs⟩]; simp [fsync_count]
        · rw [h2, if_pos hf, if_pos hs]
      · refine Or.inr (Or.inr ⟨hf, by omega, ?_, ?_⟩)
        · rw [hc, if_neg (fun h => hs h.2)]; simp [fsync_count]
        · rw [h2, if_pos hf, if_neg hs]
    · have hf0 : fi = 0 := by omega
      refine Or.inl ⟨hf0, ?_, ?_⟩
      · rw [hc, if_neg (fun h => hf h.1)]; simp [fsync_count]
      · rw [h2, if_neg hf]

/-- With `fsync_interval = 0` the loop of `shovel_data` and the code after it issue no
`fsync`, whether the run succeeds or fails. -/
theorem shovel_loop_no_fsync (wo : Bool) :
    ∀ (fuel : Nat) (s : ShovelState) (r : ShovelResult), s.len < 2 ^ 63 →
      shovel_loop wo 0 fuel s = some r →
      fsync_count r.world.trace = fsync_count s.world.trace := by
  intro fuel
  induction fuel with
  | zero => intro s r _ h; simp [shovel_loop] at h
  | succ fuel ih =>
    intro s r hlt hrun
    by_cases hpos : 0 < s.len
    · obtain ⟨res, hres, hcase⟩ := shovel_iter_spec wo 0 s hpos hlt
      rcases hcase with ⟨r1, rfl, _, _, _, _, t, ht, htr⟩ | ⟨s1, n, rfl, hstep⟩
      · simp only [shovel_loop, if_pos hpos, hres] at hrun
        cases hrun
        rw [htr, fsync_count_append, fsync_count_eq_zero ht]; omega
      · simp only [shovel_loop, if_pos hpos, hres] at hrun
        have hlen := hstep.len_eq
        have h1 := ih s1 r (by omega) hrun
        rcases iter_step_sync hstep with ⟨_, h2, _⟩ | ⟨_, ⟨_, h2, _⟩ | ⟨h2, _⟩ | ⟨h2, _⟩⟩
        · rw [h1, h2]
        · rw [h1, h2]
        · exact absurd rfl h2
        · exact absurd rfl h2
    · have hf : ¬ ((0 : Nat) ≠ 0 ∧ s.n_unsynced ≥ 0) := fun h => h.1 rfl
      simp only [shovel_loop, if_neg hpos, if_neg hf] at hrun
      cases hrun
      rfl

theorem sys_sendfile_trace (w : World) (count : Nat) :
    (sys_sendfile w count).2.trace = w.trace ++ [Event.sendfile count] := by
  unfold sys_sendfile
  split <;> rfl

/-- With `fsync_interval = 0` the zero-copy loop issues no `fsync`. -/
theorem zero_copy_loop_no_fsync (chunk_size : Nat) :
    ∀ (fuel : Nat) (w : World) (len : Nat) (n_unsynced : Int) (stats : Stats)
      (r : ZeroCopyResult),
      zero_copy_loop 0 chunk_size fuel w len n_unsynced stats = some r →
      fsync_count r.world.trace = fsync_count w.trace := by
  intro fuel
  induction fuel with
  | zero => intro w len nu stats r h; simp [zero_copy_loop] at h
  | succ fuel ih =>
    intro w len nu stats r hrun
    have htr : fsync_count (sys_sendfile w chunk_size).2.trace = fsync_count w.trace := by
      rw [sys_sendfile_trace, fsync_count_append]; simp [fsync_count]
    rw [zero_copy_loop] at hrun
    simp only [ne_eq, not_true_eq_false, false_and, decide_False, Bool.false_eq_true, if_false]
      at hrun
    split at hrun
    · split at hrun
      · rw [ih _ _ _ _ _ hrun, htr]
      · cases hrun; exact htr
    · cases hrun; exact htr

theorem shovel_data_no_fsync (w : World) (len : Int) (wo : Bool) (stats : Stats) (error : Nat)
    (buffer out_fd_buffer : Buffer) (r : ShovelResult) (hmax : len < 2 ^ 63)
    (hrun : shovel_data w len wo 0 stats error buffer out_fd_buffer = some r) :
    fsync_count r.world.trace = fsync_count w.trace :=
  shovel_loop_no_fsync wo (len.toNat + 1) _ r hmax hrun

theorem to_uintmax_zero : to_uintmax 0 = 0 := by
  simp [to_uintmax]

theorem main_copy_no_fsync (e : Env) (is_ubi : Int) (wo : Bool) (len : Nat) (w : World)
    (r : MainResult) (hrun : main_copy e is_ubi wo 0 len w = some r) :
    fsync_count r.world.trace = fsync_count w.trace := by
  unfold main_copy at hrun
  split at hrun
  · rw [to_uintmax_zero] at hrun
    cases hs : shovel_data w (to_off_t len) wo 0 Stats.zero 0 e.buffer e.out_fd_buffer with
    | none => rw [hs] at hrun; cases hrun
    | some rs =>
      rw [hs] at hrun
      simp only [main_finish, ne_eq, not_true_eq_false, if_false, Option.some.injEq] at hrun
      rw [← hrun]
      exact shovel_data_no_fsync w (to_off_t len) wo Stats.zero 0 e.buffer e.out_fd_buffer rs
        (to_off_t_lt len) hs
  · simp only [ne_eq, not_true_eq_false, if_false] at hrun
    cases hz : zero_copy_loop 0 len (w.input.length + 1) w len 0 Stats.zero with
    | none => rw [hz] at hrun; cases hrun
    | some rz =>
      rw [hz] at hrun
      simp only [main_finish, ne_eq, not_true_eq_false, if_false, Option.some.injEq] at hrun
      rw [← hrun]
      exact zero_copy_loop_no_fsync len _ w len 0 Stats.zero rz hz

theorem sys_ioctl_volup_fsync_count (w : World) (ok : Bool) (size : Nat) :
    fsync_count (sys_ioctl_volup w ok size).2.trace = fsync_count w.trace := by
  simp [sys_ioctl_volup, fsync_count_append, fsync_count]

/-- When the variable `fsync_interval` of `main` is 0 after the UBI detection (set by
`--fsync-interval 0` or forced for a UBI output), `main` issues no `fsync` on any of
its paths. -/
theorem main_no_fsync (o : Opts) (e : Env) (w : World) (r : MainResult)
    (hfi : (if e.is_ubi = 1 then 0 else o.fsync_interval) = 0) (hrun : main o e w = some r) :
    fsync_count r.world.trace = fsync_count w.trace := by
  unfold main at hrun
  simp only [hfi] at hrun
  repeat' split at hrun
  all_goals first
    | (cases hrun; rfl)
    | (simp only [Option.some.injEq] at hrun; subst hrun
       exact sys_ioctl_volup_fsync_count w e.ioctl_ok (o.volume_size % 2 ^ 64))
    | exact (main_copy_no_fsync _ _ _ _ _ _ hrun).trans rfl
    | exact (main_copy_no_fsync _ _ _ _ _ _ hrun).trans
        (sys_ioctl_volup_fsync_count w e.ioctl_ok (o.volume_size % 2 ^ 64))

theorem sync_inv_step {inp : List Byte} {len0 K f0 : Nat} {s s1 : ShovelState} {c n F : Nat}
    {wo : Bool} (hlen0 : len0 < 2 ^ 63) (hinv : ShovelInv inp len0 s c)
    (hsy : SyncInv K f0 s c F) (hstep : IterStep wo K s s1 n) :
    ∃ F1, SyncInv K f0 s1 (c + n) F1 := by
  have hB : BLOCK_SIZE = 1048576 := by norm_num [BLOCK_SIZE]
  have hn := hstep.n_le
  have hcl := hinv.c_le
  have hlen := hinv.len_eq
  have hbw := hsy.bytes_written_le
  have hcnt := hsy.count_eq
  have hp := hsy.pending
  have hlo := hsy.lower
  have hup := hsy.upper
  rw [hB] at hn hup
  have hnc : c + n ≤ len0 := by omega
  have e1 : to_uintmax ((s.stats.bytes_written : Int) + (n : Int)) = s.stats.bytes_written + n :=
    to_uintmax_add (by omega)
  have e2 : to_uintmax ((s.n_unsynced : Int) + (n : Int)) = s.n_unsynced + n :=
    to_uintmax_add (by omega)
  rcases iter_step_sync hstep with ⟨_, h1, h2, h3⟩ | ⟨h3, h4⟩
  · refine ⟨F, ?_⟩
    exact
      { bytes_written_le := by rw [h3]; omega
        count_eq := by rw [h1, hcnt]
        pending := by rw [h2]; exact hp
        lower := by rw [h2, h3]; exact hlo
        upper := by rw [h2, h3, hB]; exact hup }
  · rw [e1] at h3
    rw [e2] at h4
    rcases h4 with ⟨hK, _⟩ | ⟨_, hge, h5, h6⟩ | ⟨_, hlt, h5, h6⟩
    · omega
    · refine ⟨F + 1, ?_⟩
      have m1 : K * (F + 1) = K * F + K := by ring
      have m2 : (F + 1) * (K + 1048576 - 1) = F * (K + 1048576 - 1) + (K + 1048576 - 1) := by
        ring
      exact
        { bytes_written_le := by rw [h3]; omega
          count_eq := by rw [h5, hcnt]; omega
          pending := by rw [h6]; omega
          lower := by rw [h6, h3, m1]; omega
          upper := by rw [h6, h3, hB, m2]; omega }
    · refine ⟨F, ?_⟩
      exact
        { bytes_written_le := by rw [h3]; omega
          count_eq := by rw [h5, hcnt]
          pending := by rw [h6]; exact hlt
          lower := by rw [h6, h3]; omega
          upper := by rw [h6, h3, hB]; omega }

/-- The syncs of a run of the loop with an interval `K` that is not 0: their number
`F` satisfies `K * F ≤ bytes_written < (F + 1) * (K + BLOCK_SIZE - 1)`; the sync after
the loop is never issued. -/
theorem shovel_loop_sync (wo : Bool) (K f0 : Nat) (inp : List Byte) (len0 : Nat)
    (hlen0 : len0 < 2 ^ 63) :
    ∀ (fuel : Nat) (s : ShovelState) (c F : Nat), ShovelInv inp len0 s c →
      SyncInv K f0 s c F → len0 - c < fuel →
    ∃ r F1, shovel_loop wo K fuel s = some r ∧
      fsync_count r.world.trace = f0 + F1 ∧ K * F1 ≤ r.stats.bytes_written ∧
      r.stats.bytes_written < (F1 + 1) * (K + BLOCK_SIZE - 1) := by
  have hB : BLOCK_SIZE = 1048576 := by norm_num [BLOCK_SIZE]
  have key : ∀ (s : ShovelState) (c F : Nat), SyncInv K f0 s c F →
      K * F ≤ s.stats.bytes_written ∧
      s.stats.bytes_written < (F + 1) * (K + BLOCK_SIZE - 1) := by
    intro s c F hsy
    have hp := hsy.pending
    have hlo := hsy.lower
    have hup := hsy.upper
    have m2 : (F + 1) * (K + BLOCK_SIZE - 1) = F * (K + BLOCK_SIZE - 1) + (K + BLOCK_SIZE - 1) := by
      ring
    rw [m2]
    rw [hB] at hup ⊢
    omega
  intro fuel
  induction fuel with
  | zero => intro s c F _ _ h; omega
  | succ fuel ih =>
    intro s c F hinv hsy hfuel
    have hlen := hinv.len_eq
    have hcl := hinv.c_le
    by_cases hpos : 0 < s.len
    · obtain ⟨res, hres, hcase⟩ := shovel_iter_spec wo K s hpos (by omega)
      rcases hcase with ⟨r, rfl, _, hstats, _, _, t, ht, htr⟩ | ⟨s1, n, rfl, hstep⟩
      · refine ⟨r, F, ?_, ?_, ?_⟩
        · simp [shovel_loop, hpos, hres]
        · rw [htr, fsync_count_append, fsync_count_eq_zero ht, hsy.count_eq]; omega
        · rw [hstats]; exact key s c F hsy
      · have hn0 := hstep.n_pos
        obtain ⟨F1, hsy1⟩ := sync_inv_step hlen0 hinv hsy hstep
        obtain ⟨r, F2, hr, h1⟩ := ih s1 (c + n) F1 (shovel_inv_step hinv hstep) hsy1 (by omega)
        refine ⟨r, F2, ?_, h1⟩
        simp [shovel_loop, hpos, hres, hr]
    · have hp := hsy.pending
      have hf : ¬ (K ≠ 0 ∧ s.n_unsynced ≥ K) := by omega
      refine ⟨⟨true, s.stats, s.error, s.world⟩, F, ?_, hsy.count_eq, key s c F hsy⟩
      simp only [shovel_loop, if_neg hpos, if_neg hf]

/-- The syncs of a run of `shovel_data` from zeroed statistics with an interval `K`
that is not 0, counted against the bytes written. -/
theorem shovel_data_sync (w : World) (len : Nat) (wo : Bool) (K : Nat) (error : Nat)
    (buffer out_fd_buffer : Buffer) (r : ShovelResult) (hK : 0 < K) (hmax : len < 2 ^ 63)
    (hrun : shovel_data w (len : Int) wo K Stats.zero error buffer out_fd_buffer = some r) :
    ∃ F, fsync_count r.world.trace = fsync_count w.trace + F ∧
      r.stats.bytes_written / (K + BLOCK_SIZE - 1) ≤ F ∧ F ≤ r.stats.bytes_written / K := by
  have hinv : ShovelInv w.input len
      { world := w, buffer := buffer, out_fd_buffer := out_fd_buffer, len := (len : Int),
        n_unsynced := 0, stats := Stats.zero, error := error } 0 :=
    { c_le := by omega
      len_eq := by simp
      c_le_input := by omega
      input_eq := by simp }
  have hsy : SyncInv K (fsync_count w.trace)
      { world := w, buffer := buffer, out_fd_buffer := out_fd_buffer, len := (len : Int),
        n_unsynced := 0, stats := Stats.zero, error := error } 0 0 :=
    { bytes_written_le := by simp [Stats.zero]
      count_eq := rfl
      pending := hK
      lower := by simp [Stats.zero]
      upper := by simp [Stats.zero] }
  obtain ⟨r1, F, hr1, h1, h2, h3⟩ := shovel_loop_sync wo K (fsync_count w.trace) w.input len hmax
    ((len : Int).toNat + 1) _ 0 0 hinv hsy (by simp)
  unfold shovel_data at hrun
  rw [hrun] at hr1
  cases hr1
  have hX : 0 < K + BLOCK_SIZE - 1 := by
    have hB : BLOCK_SIZE = 1048576 := by norm_num [BLOCK_SIZE]
    omega
  refine ⟨F, h1, ?_, ?_⟩
  · exact Nat.lt_succ_iff.mp ((Nat.div_lt_iff_lt_mul hX).mpr h3)
  · exact (Nat.le_div_iff_mul_le hK).mpr (by rw [Nat.mul_comm]; exact h2)

/-! ## Runs that write every block: the accumulator block by block -/

theorem plain_step (K fuel : Nat) (s : ShovelState) (L u f b L1 u1 f1 b1 : Nat)
    (hK : K ≠ 0) (h : PlainRun s L u f b) (hL : 0 < L) (hL2 : L < 2 ^ 63)
    (hb : b + BLOCK_SIZE < 2 ^ 64) (hu : u + BLOCK_SIZE < 2 ^ 64) (hfuel : 0 < fuel)
    (hL1 : L1 = L - min BLOCK_SIZE L)
    (hu1 : u1 = if u + min BLOCK_SIZE L ≥ K then 0 else u + min BLOCK_SIZE L)
    (hf1 : f1 = f + if u + min BLOCK_SIZE L ≥ K then 1 else 0)
    (hb1 : b1 = b + min BLOCK_SIZE L) :
    ∃ s1, shovel_loop false K fuel s = shovel_loop false K (fuel - 1) s1 ∧
      PlainRun s1 L1 u1 f1 b1 := by
  obtain ⟨m, rfl⟩ : ∃ m, fuel = m + 1 := ⟨fuel - 1, by omega⟩
  have hB : BLOCK_SIZE = 1048576 := by norm_num [BLOCK_SIZE]
  have hlen := h.len_eq
  have hin := h.input_le
  have hpos : 0 < s.len := by omega
  obtain ⟨res, hres, hcase⟩ := shovel_iter_spec false K s hpos (by omega)
  rcases hcase with ⟨r, rfl, _, _, _, hwhy, _⟩ | ⟨s1, n, rfl, hstep⟩
  · exfalso
    rcases hwhy with hw | hw | hw
    · exact hw h.no_fail_in
    · exact hw h.no_fail_out
    · rw [hw] at hin; simp at hin; omega
  · refine ⟨s1, ?_, ?_⟩
    · simp [shovel_loop, hpos, hres]
    · have hn := hstep.n_le
      have hse := hstep.short_eof
      have hni := hstep.n_le_input
      have htn : s.len.toNat = L := by omega
      rw [htn] at hn hse
      have hnn : n = min BLOCK_SIZE L := by
        by_contra hne
        have := hse (by omega)
        omega
      obtain ⟨j1, hj1⟩ := hstep.in_script_eq
      obtain ⟨j2, hj2⟩ := hstep.out_script_eq
      have hnB : n ≤ 1048576 := by omega
      have e1 : to_uintmax ((s.stats.bytes_written : Int) + (n : Int)) =
          s.stats.bytes_written + n := to_uintmax_add (by rw [h.bytes_eq]; omega)
      have e2 : to_uintmax ((s.n_unsynced : Int) + (n : Int)) = s.n_unsynced + n :=
        to_uintmax_add (by rw [h.n_unsynced_eq]; omega)
      have base : s1.len = (L1 : Int) ∧ L1 ≤ s1.world.input.length ∧
          no_fail s1.world.in_script ∧ no_fail s1.world.out_script := by
        refine ⟨?_, ?_, ?_, ?_⟩
        · rw [hstep.len_eq, hlen]; omega
        · rw [hstep.input_eq, List.length_drop]; omega
        · rw [hj1]; exact no_fail_drop h.no_fail_in _
        · rw [hj2]; exact no_fail_drop h.no_fail_out _
      obtain ⟨b1', b2', b3', b4'⟩ := base
      rcases iter_step_sync hstep with ⟨h0, _⟩ | ⟨h3, h4⟩
      · cases h0
      · rw [e1, h.bytes_eq] at h3
        rw [e2, h.n_unsynced_eq, h.count_eq] at h4
        rcases h4 with ⟨h5, _⟩ | ⟨_, hge, h5, h6⟩ | ⟨_, hlt, h5, h6⟩
        · exact absurd h5 hK
        · rw [hnn] at hge
          exact
            { len_eq := b1'
              input_le := b2'
              no_fail_in := b3'
              no_fail_out := b4'
              n_unsynced_eq := by rw [h6, hu1, if_pos hge]
              count_eq := by rw [h5, hf1, if_pos hge]
              bytes_eq := by rw [h3, hb1, hnn] }
        · rw [hnn] at hlt
          have hng : ¬ (u + min BLOCK_SIZE L ≥ K) := by omega
          exact
            { len_eq := b1'
              input_le := b2'
              no_fail_in := b3'
              no_fail_out := b4'
              n_unsynced_eq := by rw [h6, hu1, if_neg hng, hnn]
              count_eq := by rw [h5, hf1, if_neg hng]; rfl
              bytes_eq := by rw [h3, hb1, hnn] }

theorem plain_exit (K fuel : Nat) (s : ShovelState) (u f b : Nat) (h : PlainRun s 0 u f b)
    (hu : u < K) (hfuel : 0 < fuel) :
    ∃ r, shovel_loop false K fuel s = some r ∧ r.ok = true ∧ r.stats.bytes_written = b ∧
      fsync_count r.world.trace = f := by
  obtain ⟨m, rfl⟩ : ∃ m, fuel = m + 1 := ⟨fuel - 1, by omega⟩
  have hlen := h.len_eq
  have hpos : ¬ 0 < s.len := by omega
  have hf : ¬ (K ≠ 0 ∧ s.n_unsynced ≥ K) := by rw [h.n_unsynced_eq]; omega
  refine ⟨⟨true, s.stats, s.error, s.world⟩, ?_, rfl, h.bytes_eq, h.count_eq⟩
  simp only [shovel_loop, if_neg hpos, if_neg hf]

/-- A transfer of 6 MiB with a sync interval of 1.5 MiB, every block written, no call
failing: the accumulator goes 1, 2 MiB (sync, reset to 0), three times over, so 3 syncs
are issued for 6 MiB written. -/
theorem six_mib_run :
    ∃ r, shovel_data six_mib_world 6291456 false 1572864 Stats.zero 0 zero_buffer zero_buffer =
        some r ∧
      r.ok = true ∧ r.stats.bytes_written = 6291456 ∧ fsync_count r.world.trace = 3 := by
  have hK : (1572864 : Nat) ≠ 0 := by decide
  have p0 : PlainRun
      { world := six_mib_world, buffer := zero_buffer, out_fd_buffer := zero_buffer,
        len := 6291456, n_unsynced := 0, stats := Stats.zero, error := 0 } 6291456 0 0 0 :=
    { len_eq := rfl
      input_le := by
        show 6291456 ≤ (List.replicate 6291456 (0 : Byte)).length
        rw [List.length_replicate]
      no_fail_in := by
        show no_fail []
        intro o ho; cases ho
      no_fail_out := by
        show no_fail []
        intro o ho; cases ho
      n_unsynced_eq := rfl
      count_eq := rfl
      bytes_eq := rfl }
  obtain ⟨s1, e1, p1⟩ := plain_step 1572864 6291457 _ 6291456 0 0 0 5242880 1048576 0 1048576
    hK p0 (by decide) (by decide) (by decide) (by decide) (by decide) (by decide) (by decide)
    (by decide) (by decide)
  obtain ⟨s2, e2, p2⟩ := plain_step 1572864 6291456 s1 5242880 1048576 0 1048576 4194304 0 1
    2097152 hK p1 (by decide) (by decide) (by decide) (by decide) (by decide) (by decide)
    (by decide) (by decide) (by decide)
  obtain ⟨s3, e3, p3⟩ := plain_step 1572864 6291455 s2 4194304 0 1 2097152 3145728 1048576 1
    3145728 hK p2 (by decide) (by decide) (by decide) (by decide) (by decide) (by decide)
    (by decide) (by decide) (by decide)
  obtain ⟨s4, e4, p4⟩ := plain_step 1572864 6291454 s3 3145728 1048576 1 3145728 2097152 0 2
    4194304 hK p3 (by decide) (by decide) (by decide) (by decide) (by decide) (by decide)
    (by decide) (by decide) (by decide)
  obtain ⟨s5, e5, p5⟩ := plain_step 1572864 6291453 s4 2097152 0 2 4194304 1048576 1048576 2
    5242880 hK p4 (by decide) (by decide) (by decide) (by decide) (by decide) (by decide)
    (by decide) (by decide) (by decide)
  obtain ⟨s6, e6, p6⟩ := plain_step 1572864 6291452 s5 1048576 1048576 2 5242880 0 0 3
    6291456 hK p5 (by decide) (by decide) (by decide) (by decide) (by decide) (by decide)
    (by decide) (by decide) (by decide)
  obtain ⟨r, hr, h1, h2, h3⟩ := plain_exit 1572864 6291451 s6 0 3 6291456 p6 (by decide)
    (by decide)
  refine ⟨r, ?_, h1, h2, h3⟩
  have hfuel : ((6291456 : Int)).toNat + 1 = 6291457 := by decide
  unfold shovel_data
  rw [hfuel, e1, e2, e3, e4, e5, e6]
  exact hr

/-- A run of `shovel_data` from zeroed statistics that writes fewer bytes than the
interval issues no `fsync` at all, neither in the loop nor after it. -/
theorem no_sync_below_interval (w : World) (len : Nat) (wo : Bool) (K : Nat) (error : Nat)
    (buffer out_fd_buffer : Buffer) (r : ShovelResult) (hmax : len < 2 ^ 63)
    (hrun : shovel_data w (len : Int) wo K Stats.zero error buffer out_fd_buffer = some r)
    (hlt : r.stats.bytes_written < K) :
    fsync_count r.world.trace = fsync_count w.trace := by
  obtain ⟨F, h1, _, h2⟩ := shovel_data_sync w len wo K error buffer out_fd_buffer r (by omega)
    hmax hrun
  rw [Nat.div_eq_of_lt hlt] at h2
  omega

/-! ## The sync policy: what the runs guarantee -/

/-- C11, as stated, fails: a transfer of 6 MiB with `fsync_interval` = 1.5 MiB, every
block written, issues 3 syncs, fewer than 6 MiB / 1.5 MiB = 4, because the accumulator
is reset to 0 on each sync; and a transfer of 3 bytes with `fsync_interval` = 1 issues
1 sync, fewer than 3 / 1 = 3, because a sync is issued after a write only. -/
theorem C11_sync_count_below_quotient :
    (∃ r, shovel_data six_mib_world 6291456 false 1572864 Stats.zero 0 zero_buffer
        zero_buffer = some r ∧
      r.ok = true ∧ r.stats.bytes_written = 6291456 ∧ fsync_count r.world.trace = 3 ∧
      fsync_count r.world.trace < r.stats.bytes_written / 1572864) ∧
    (∃ r, shovel_data (counting_world 3) 3 false 1 Stats.zero 0 zero_buffer zero_buffer =
        some r ∧
      r.ok = true ∧ r.stats.bytes_written = 3 ∧ fsync_count r.world.trace = 1 ∧
      fsync_count r.world.trace < r.stats.bytes_written / 1) := by
  constructor
  · obtain ⟨r, hr, h1, h2, h3⟩ := six_mib_run
    refine ⟨r, hr, h1, h2, h3, ?_⟩
    rw [h2, h3]; decide
  · exact ⟨{ plain_result with
        world := { plain_result.world with trace := [Event.write 3, Event.fsync] } },
      by decide, rfl, rfl, by decide, by decide⟩

/-- C11, amended: for every interval `K > 0` and every run of `shovel_data` from zeroed
statistics (successful or not), the number `F` of `fsync` calls that `shovel_data`
issues is at least `bytes_written / (K + BLOCK_SIZE - 1)` and at most
`bytes_written / K`, both rounded down: a sync is issued after a write only, when at
least `K` bytes were written since the sync before, and a write adds at most
`BLOCK_SIZE` bytes. -/
theorem C11_sync_count_bounds (w : World) (len : Nat) (write_optimized : Bool) (K : Nat)
    (error : Nat) (buffer out_fd_buffer : Buffer) (r : ShovelResult) (hK : 0 < K)
    (hmax : len < 2 ^ 63)
    (hrun : shovel_data w (len : Int) write_optimized K Stats.zero error buffer
      out_fd_buffer = some r) :
    ∃ F, fsync_count r.world.trace = fsync_count w.trace + F ∧
      r.stats.bytes_written / (K + BLOCK_SIZE - 1) ≤ F ∧ F ≤ r.stats.bytes_written / K :=
  shovel_data_sync w len write_optimized K error buffer out_fd_buffer r hK hmax hrun

/-- Witness for C11: 3 bytes copied write-optimized with a sync every 2 bytes, one sync. -/
theorem C11_witness :
    (0 < 2 ∧ 3 < 2 ^ 63 ∧
      shovel_data (counting_world 3) ((3 : Nat) : Int) true 2 Stats.zero 0 zero_buffer
        zero_buffer = some synced_result) ∧
    ∃ F, fsync_count synced_result.world.trace = fsync_count (counting_world 3).trace + F ∧
      synced_result.stats.bytes_written / (2 + BLOCK_SIZE - 1) ≤ F ∧
      F ≤ synced_result.stats.bytes_written / 2 :=
  ⟨⟨by decide, by decide, by decide⟩,
    C11_sync_count_bounds (counting_world 3) 3 true 2 0 zero_buffer zero_buffer synced_result
      (by decide) (by decide) (by decide)⟩

/-- C12: with `fsync_interval = 0` no `fsync` is issued: a run of `shovel_data`, for
every length an `off_t` holds, both modes, every input and output, successful or not,
leaves the number of `fsync` calls in the trace as it was (no sync in the loop, none
after it), and so does a run of `main` whose variable `fsync_interval` is 0 after the
UBI detection (given as `--fsync-interval 0`, or forced for a UBI output), on the
buffered path, on the zero-copy path and before it closes the output. -/
theorem C12_no_fsync_when_interval_is_zero (w : World) (len : Int) (write_optimized : Bool)
    (stats : Stats) (error : Nat) (buffer out_fd_buffer : Buffer) (rs : ShovelResult)
    (o : Opts) (e : Env) (w2 : World) (rm : MainResult)
    (hmax : len < 2 ^ 63)
    (hrun_shovel : shovel_data w len write_optimized 0 stats error buffer out_fd_buffer =
      some rs)
    (hinterval : (if e.is_ubi = 1 then 0 else o.fsync_interval) = 0)
    (hrun_main : main o e w2 = some rm) :
    fsync_count rs.world.trace = fsync_count w.trace ∧
      fsync_count rm.world.trace = fsync_count w2.trace :=
  ⟨shovel_data_no_fsync w len write_optimized stats error buffer out_fd_buffer rs hmax
      hrun_shovel,
    main_no_fsync o e w2 rm hinterval hrun_main⟩

/-- Witness for C12: 3 bytes copied by `shovel_data` and by the zero-copy loop of `main`. -/
theorem C12_witness :
    ((3 : Int) < 2 ^ 63 ∧
      shovel_data (counting_world 3) 3 false 0 Stats.zero 0 zero_buffer zero_buffer =
        some plain_result ∧
      (if (good_env false 3).is_ubi = 1 then 0 else (Opts.mk 3 false 0).fsync_interval) = 0 ∧
      main ⟨3, false, 0⟩ (good_env false 3) (counting_world 3) = some zero_copy_result) ∧
    (fsync_count plain_result.world.trace = fsync_count (counting_world 3).trace ∧
      fsync_count zero_copy_result.world.trace = fsync_count (counting_world 3).trace) :=
  ⟨⟨by decide, by decide, by decide, by decide⟩,
    C12_no_fsync_when_interval_is_zero (counting_world 3) 3 false Stats.zero 0 zero_buffer
      zero_buffer plain_result ⟨3, false, 0⟩ (good_env false 3) (counting_world 3)
      zero_copy_result (by decide) (by decide) (by decide) (by decide)⟩

/-- C13: a run of `shovel_data` with `fsync_interval = 5` that copies 3 bytes returns
true and consumes the whole length; after its one iteration the length left is 0 and
the accumulator `n_unsynced` is 3; but the trace holds the write only: no `fsync` is
issued after the loop, because the test there is `n_unsynced >= fsync_interval`, which
the loop never leaves true. -/
theorem C13_no_final_fsync_for_the_residual :
    shovel_data (counting_world 3) 3 false 5 Stats.zero 0 zero_buffer zero_buffer =
      some plain_result ∧
    plain_result.ok = true ∧ plain_result.world.input = [] ∧
    plain_result.stats.bytes_written = 3 ∧
    ((shovel_iter false 5
        { world := counting_world 3, buffer := zero_buffer, out_fd_buffer := zero_buffer,
          len := 3, n_unsynced := 0, stats := Stats.zero, error := 0 }).bind
      IterResult.pending) = some (0, 3) ∧
    plain_result.world.trace = [Event.write 3] ∧
    fsync_count plain_result.world.trace = 0 := by
  refine ⟨by decide, rfl, rfl, rfl, by decide, rfl, by decide⟩

end MenderFlash
